import Mathlib

/-!
Verification development for the SQL-FromScratch storage and query engine.

Each section embeds one component of the C++ source as Lean definitions
(pure functions over lists and naturals; machine integers become `Nat`
with explicit bounds where overflow matters) and proves the properties
the specification states about it.
-/

set_option maxRecDepth 10000

/-! ## Data types (types.hpp interface, sizes per spec section 3) -/

/-- The fixed type-tag enum of the engine (spec section 3: unsigned and
signed ints of 8/16/32/64 bits, floats, fixed CHAR arrays, null). -/
inductive DataType
  | TYPE_U8 | TYPE_U16 | TYPE_U32 | TYPE_U64
  | TYPE_I8 | TYPE_I16 | TYPE_I32 | TYPE_I64
  | TYPE_F32 | TYPE_F64
  | TYPE_CHAR8 | TYPE_CHAR16 | TYPE_CHAR32 | TYPE_CHAR64
  | TYPE_CHAR128 | TYPE_CHAR256
  | TYPE_NULL
  deriving DecidableEq, Repr

open DataType

/-- Modelled from the spec: `type_size` lives in types.hpp, which is not in
the source tree; section 3 fixes the byte width of every tag ("Each has a
known byte width"), ints by their bit width, CHAR-N of width N. -/
def type_size : DataType → Nat
  | TYPE_U8 => 1 | TYPE_U16 => 2 | TYPE_U32 => 4 | TYPE_U64 => 8
  | TYPE_I8 => 1 | TYPE_I16 => 2 | TYPE_I32 => 4 | TYPE_I64 => 8
  | TYPE_F32 => 4 | TYPE_F64 => 8
  | TYPE_CHAR8 => 8 | TYPE_CHAR16 => 16 | TYPE_CHAR32 => 32
  | TYPE_CHAR64 => 64 | TYPE_CHAR128 => 128 | TYPE_CHAR256 => 256
  | TYPE_NULL => 0

/-- Comparison operators, common.hpp `COMPARISON_OP`. -/
inductive COMPARISON_OP
  | EQ | NE | LT | LE | GT | GE
  deriving DecidableEq, Repr

/-! ## parse_uint32 (parser.cpp lines 411-433)

The C++ loops over the characters of the token, rejecting on a non-digit
and rejecting when `val * 10 + digit` would exceed `UINT32_MAX`
(the guard is `val > (UINT32_MAX - digit) / 10` in unsigned arithmetic,
which is integer division, hence the `Nat` division below). Character
comparisons in C are comparisons of the character codes, so the embedding
compares `Char.toNat` values. -/

def UINT32_MAX : Nat := 4294967295

/-- One iteration of the parse_uint32 loop: `none` is the poisoned state
after a `return false`. -/
def parse_uint32_step (acc : Option Nat) (c : Char) : Option Nat :=
  match acc with
  | none => none
  | some val =>
    if c.toNat < 48 ∨ 57 < c.toNat then none
    else
      let digit := c.toNat - 48
      if val > (UINT32_MAX - digit) / 10 then none
      else some (val * 10 + digit)

/-- parser.cpp `parse_uint32`: returns the parsed value, or `none` where the
C++ returns `false`. -/
def parse_uint32 (s : List Char) : Option Nat :=
  s.foldl parse_uint32_step (some 0)

/-- `c` is an ASCII decimal digit (the C++ test `'0' <= c && c <= '9'`,
i.e. code between 48 and 57). -/
def isDigitChar (c : Char) : Prop := 48 ≤ c.toNat ∧ c.toNat ≤ 57

instance (c : Char) : Decidable (isDigitChar c) := by
  unfold isDigitChar; infer_instance

/-- The exact numeric value of a digit string, most significant first,
accumulated onto `v`. -/
def decimalValueFrom (v : Nat) (s : List Char) : Nat :=
  s.foldl (fun a c => a * 10 + (c.toNat - 48)) v

def decimalValue (s : List Char) : Nat := decimalValueFrom 0 s

lemma decimalValueFrom_cons (v : Nat) (c : Char) (s : List Char) :
    decimalValueFrom v (c :: s) =
      decimalValueFrom (v * 10 + (c.toNat - 48)) s := rfl

lemma le_decimalValueFrom (v : Nat) (s : List Char) :
    v ≤ decimalValueFrom v s := by
  induction s generalizing v with
  | nil => simp [decimalValueFrom]
  | cons c t ih =>
      calc v ≤ v * 10 + (c.toNat - 48) := by omega
      _ ≤ decimalValueFrom (v * 10 + (c.toNat - 48)) t := ih _
      _ = decimalValueFrom v (c :: t) := (decimalValueFrom_cons v c t).symm

lemma parse_uint32_none_absorb (s : List Char) :
    s.foldl parse_uint32_step none = none := by
  induction s with
  | nil => rfl
  | cons c t ih => simpa [parse_uint32_step] using ih

/-- The overflow guard keeps the partial value exactly when the next value
still fits in 32 bits. -/
lemma parse_uint32_guard (val digit : Nat) (hd : digit ≤ 9) :
    (val > (UINT32_MAX - digit) / 10) ↔ UINT32_MAX < val * 10 + digit := by
  unfold UINT32_MAX
  omega

lemma parse_uint32_run_fits (s : List Char) (v : Nat)
    (hdig : ∀ c ∈ s, isDigitChar c)
    (hfit : decimalValueFrom v s ≤ UINT32_MAX) :
    s.foldl parse_uint32_step (some v) = some (decimalValueFrom v s) := by
  induction s generalizing v with
  | nil => simp [decimalValueFrom]
  | cons c t ih =>
      obtain ⟨h0, h9⟩ := hdig c (List.mem_cons_self c t)
      have hnd : ¬ (c.toNat < 48 ∨ 57 < c.toNat) := by omega
      have hstepfit : v * 10 + (c.toNat - 48) ≤ UINT32_MAX := by
        calc v * 10 + (c.toNat - 48)
            ≤ decimalValueFrom (v * 10 + (c.toNat - 48)) t :=
              le_decimalValueFrom _ t
        _ = decimalValueFrom v (c :: t) := (decimalValueFrom_cons v c t).symm
        _ ≤ UINT32_MAX := hfit
      have hguard : ¬ (v > (UINT32_MAX - (c.toNat - 48)) / 10) := by
        rw [parse_uint32_guard v _ (by omega)]
        omega
      simp only [List.foldl_cons, parse_uint32_step, if_neg hnd, if_neg hguard]
      rw [ih _ (fun d hd => hdig d (List.mem_cons_of_mem c hd))
        (by rw [← decimalValueFrom_cons]; exact hfit)]
      rw [decimalValueFrom_cons]

lemma parse_uint32_run_overflow (s : List Char) (v : Nat)
    (hv : v ≤ UINT32_MAX)
    (hbig : UINT32_MAX < decimalValueFrom v s) :
    s.foldl parse_uint32_step (some v) = none := by
  induction s generalizing v with
  | nil =>
      exfalso
      simp only [decimalValueFrom, List.foldl_nil] at hbig
      omega
  | cons c t ih =>
      by_cases hnd : c.toNat < 48 ∨ 57 < c.toNat
      · simp only [List.foldl_cons, parse_uint32_step, if_pos hnd]
        exact parse_uint32_none_absorb t
      · push_neg at hnd
        by_cases hguard : v > (UINT32_MAX - (c.toNat - 48)) / 10
        · simp only [List.foldl_cons, parse_uint32_step]
          rw [if_neg (by omega), if_pos hguard]
          exact parse_uint32_none_absorb t
        · have hfits : v * 10 + (c.toNat - 48) ≤ UINT32_MAX := by
            rw [parse_uint32_guard v _ (by omega)] at hguard
            omega
          simp only [List.foldl_cons, parse_uint32_step]
          rw [if_neg (by omega), if_neg hguard]
          exact ih _ hfits (by rw [← decimalValueFrom_cons]; exact hbig)

lemma parse_uint32_run_nondigit (s : List Char) (v : Nat)
    (h : ∃ c ∈ s, ¬ isDigitChar c) :
    s.foldl parse_uint32_step (some v) = none := by
  induction s generalizing v with
  | nil => simp at h
  | cons c t ih =>
      by_cases hnd : c.toNat < 48 ∨ 57 < c.toNat
      · simp only [List.foldl_cons, parse_uint32_step, if_pos hnd]
        exact parse_uint32_none_absorb t
      · push_neg at hnd
        obtain ⟨d, hd, hdnot⟩ := h
        rcases List.mem_cons.mp hd with rfl | hdt
        · exact absurd ⟨hnd.1, hnd.2⟩ hdnot
        · by_cases hguard : v > (UINT32_MAX - (c.toNat - 48)) / 10
          · simp only [List.foldl_cons, parse_uint32_step]
            rw [if_neg (by omega), if_pos hguard]
            exact parse_uint32_none_absorb t
          · simp only [List.foldl_cons, parse_uint32_step]
            rw [if_neg (by omega), if_neg hguard]
            exact ih _ ⟨d, hdt, hdnot⟩

/-- C10: `parse_uint32` accepts a token exactly when it is all decimal
digits and its exact value fits in 32 bits, and then yields that exact
value; a non-digit character or a value above `UINT32_MAX` is rejected
(no wrap-around modulo 2^32), so every numeric literal the parser accepts
holds its exact value. -/
theorem parse_uint32_exact (s : List Char) (v : Nat) :
    parse_uint32 s = some v ↔
      ((∀ c ∈ s, isDigitChar c) ∧ decimalValue s ≤ UINT32_MAX ∧
        v = decimalValue s) := by
  unfold parse_uint32 decimalValue
  constructor
  · intro h
    by_cases hdig : ∀ c ∈ s, isDigitChar c
    · by_cases hfit : decimalValueFrom 0 s ≤ UINT32_MAX
      · refine ⟨hdig, hfit, ?_⟩
        rw [parse_uint32_run_fits s 0 hdig hfit] at h
        exact (Option.some_injective _ h).symm
      · exfalso
        rw [parse_uint32_run_overflow s 0 (by unfold UINT32_MAX; omega)
          (by omega)] at h
        exact Option.noConfusion h
    · exfalso
      push_neg at hdig
      obtain ⟨c, hc, hcnot⟩ := hdig
      rw [parse_uint32_run_nondigit s 0 ⟨c, hc, hcnot⟩] at h
      exact Option.noConfusion h
  · rintro ⟨hdig, hfit, rfl⟩
    exact parse_uint32_run_fits s 0 hdig hfit

/-! ## Tuple format (catalog.cpp `tuple_format_from_types`, lines 26-52)

The C++ takes the column type list of a relation; the first column is the
key, the remaining columns form the record.  It pushes an initial offset 0,
then for each column index `i` from 1 it adds `type_size(columns[i])` to a
running offset and pushes the result.  `record_size` is the final running
offset. -/

structure tuple_format where
  key_type : DataType
  columns : List DataType
  offsets : List Nat
  record_size : Nat
  deriving Repr

/-- The `for i in [1, n)` loop of `tuple_format_from_types`: from a running
`offset`, produce the offsets pushed for the record columns and the final
offset. -/
def tf_offsets_loop : List DataType → Nat → (List Nat × Nat)
  | [], off => ([], off)
  | c :: rest, off =>
      let off2 := off + type_size c
      let (pushed, fin) := tf_offsets_loop rest off2
      (off2 :: pushed, fin)

/-- catalog.cpp `tuple_format_from_types`.  The C++ reads `columns[0]`
unconditionally; on an empty list that is undefined behaviour, so the
embedding supplies `TYPE_NULL` there and the theorems assume a non-empty
list. -/
def tuple_format_from_types (columns : List DataType) : tuple_format :=
  let key := columns.headD TYPE_NULL
  let (pushed, fin) := tf_offsets_loop columns.tail 0
  { key_type := key
    columns := columns
    offsets := 0 :: pushed
    record_size := fin }

lemma tf_offsets_loop_fin (l : List DataType) (off : Nat) :
    (tf_offsets_loop l off).2 = off + (l.map type_size).sum := by
  induction l generalizing off with
  | nil => simp [tf_offsets_loop]
  | cons c rest ih => simp [tf_offsets_loop, ih]; omega

lemma tf_offsets_loop_get (l : List DataType) (off : Nat) (j : Nat)
    (hj : j < l.length) :
    (tf_offsets_loop l off).1.get? j =
      some (off + ((l.take (j + 1)).map type_size).sum) := by
  induction l generalizing off j with
  | nil => simp at hj
  | cons c rest ih =>
      cases j with
      | zero => simp [tf_offsets_loop]
      | succ k =>
          have hk : k < rest.length := by simpa using hj
          simp only [tf_offsets_loop, List.get?_cons_succ, List.take_succ_cons,
            List.map_cons, List.sum_cons]
          rw [ih _ k hk]
          congr 1
          omega

/-- C5: for every non-empty column type list, `record_size` is the sum of
the byte sizes of the non-key columns, and the offset stored for the
`j`-th non-key column is the prefix sum of the sizes of the non-key
columns before it, starting at 0. -/
theorem tuple_format_from_types_layout (c0 : DataType) (rest : List DataType) :
    (tuple_format_from_types (c0 :: rest)).record_size =
        (rest.map type_size).sum ∧
      ∀ j : Fin rest.length,
        (tuple_format_from_types (c0 :: rest)).offsets.get? j.val =
          some (((rest.take j.val).map type_size).sum) := by
  constructor
  · show (tf_offsets_loop rest 0).2 = (rest.map type_size).sum
    rw [tf_offsets_loop_fin]
    omega
  · intro j
    show (0 :: (tf_offsets_loop rest 0).1).get? j.val = _
    cases hv : j.val with
    | zero => simp
    | succ k =>
        have hk : k < rest.length := by
          have := j.isLt
          omega
        simp only [List.get?_cons_succ]
        rw [tf_offsets_loop_get rest 0 k hk]
        simp

/-! ## Arena allocator free lists (arena.hpp lines 211-339)

Blocks are identified by their byte offset from the arena base (`Nat`);
`bump` is the offset of the `current` high-water pointer.  The
`occupied_buckets` bitmask of the C++ is exactly "bucket non-empty" (set on
every push, cleared when a pop empties the bucket), so the model consults
the buckets directly.  The 32-entry bucket array becomes a function from
bucket index to list of block offsets (only indices 0..31 are ever
touched: `get_size_class` clamps to 31 and the scan stops below 32).  The
`base`-range guards of `reclaim` are vacuous in the offset model; the
`addr >= current` guard is kept. -/

/-- Structural-recursion version of the 64-bit `BitScanReverse` loop:
`log2fuel 64 n` is the index of the highest set bit of `n` for `n < 2^64`
(and 0 for `n = 0`). -/
def log2fuel : Nat → Nat → Nat
  | 0, _ => 0
  | fuel + 1, n => if 2 ≤ n then log2fuel fuel (n / 2) + 1 else 0

/-- arena.hpp `get_size_class` (lines 219-232): `size |= 2`, highest set
bit of `size - 1`, clamped branchlessly to `[0, 31]` (the XOR dance is
`min · 31`). -/
def get_size_class (size : Nat) : Nat :=
  min (log2fuel 64 ((size ||| 2) - 1)) 31

/-- An arena's reclamation state: the free-list buckets of block offsets
plus the bump offset. -/
structure ArenaState where
  freelists : Nat → List Nat
  bump : Nat

/-- arena.hpp `reclaim` (lines 238-261): ignore blocks smaller than
`sizeof(free_block)` (two 8-byte fields) or beyond `current`; otherwise
push onto the floor-log2 bucket. -/
def arena_reclaim (st : ArenaState) (addr size : Nat) : ArenaState :=
  if size < 16 ∨ st.bump ≤ addr then st
  else
    let cls := get_size_class size
    { st with freelists :=
        fun b => if b = cls then addr :: st.freelists cls else st.freelists b }

/-- The `ctz(candidates)` scan: smallest bucket index `≥ b` (and `< 32`)
whose free list is non-empty.  Fuel keeps the recursion structural. -/
def find_bucket_go (fl : Nat → List Nat) : Nat → Nat → Option Nat
  | 0, _ => none
  | fuel + 1, b =>
    if b < 32 then
      if (fl b).isEmpty then find_bucket_go fl fuel (b + 1) else some b
    else none

/-- arena.hpp `try_alloc_from_freelist` (lines 270-313): bump the class to
the ceiling (`size > 2^cls` means bucket `cls+1` is needed), find the
smallest occupied bucket at least that class, pop its head. -/
def try_alloc_from_freelist (st : ArenaState) (size : Nat) :
    Option (Nat × ArenaState) :=
  let cls0 := get_size_class size
  let cls := if size > 2 ^ cls0 then cls0 + 1 else cls0
  match find_bucket_go st.freelists 32 cls with
  | none => none
  | some b =>
      match st.freelists b with
      | [] => none
      | a :: rest =>
          some (a, { st with freelists :=
            fun i => if i = b then rest else st.freelists i })

/-- arena.hpp `alloc` (lines 315-339): recycle from the free lists, else
bump-allocate from the 8-byte-aligned high-water mark (capacity checks
abstracted away; they only produce `none` on exhaustion). -/
def arena_alloc (st : ArenaState) (size : Nat) :
    Option (Nat × ArenaState) :=
  if size = 0 then none
  else
    match try_alloc_from_freelist st size with
    | some r => some r
    | none =>
        let aligned := ((st.bump + 7) / 8) * 8
        some (aligned, { st with bump := aligned + size })

/-- The empty arena with 1000 bytes already bump-allocated. -/
def arenaEx : ArenaState := { freelists := fun _ => [], bump := 1000 }

/-- C4 counterexample: reclaim a 24-byte block (floor-log2 class 4), then
alloc 24 bytes: the allocation searches only buckets `≥ ceil-log2 24 = 5`,
misses, and bump-allocates a fresh block at offset 1000, leaving the
reclaimed block sitting untouched in bucket 4 — the returned block is NOT
from the reclaimed block's size class. -/
theorem arena_reclaim_alloc_miss :
    get_size_class 24 = 4 ∧
    (arena_reclaim arenaEx 0 24).freelists 4 = [0] ∧
    (arena_alloc (arena_reclaim arenaEx 0 24) 24).map Prod.fst =
      some 1000 ∧
    ((arena_alloc (arena_reclaim arenaEx 0 24) 24).map
      (fun r => r.2.freelists 4)) = some [0] := by
  refine ⟨rfl, rfl, rfl, rfl⟩

lemma get_size_class_pow (n : Nat) (h4 : 4 ≤ n) (h31 : n ≤ 31) :
    get_size_class (2 ^ n) = n := by
  have hfin : ∀ m : Fin 28, get_size_class (2 ^ (m.val + 4)) = m.val + 4 := by
    decide
  have h := hfin ⟨n - 4, by omega⟩
  have hn : n - 4 + 4 = n := by omega
  rw [hn] at h
  exact h

lemma find_bucket_go_hit (fl : Nat → List Nat) (fuel b : Nat)
    (hb : b < 32) (hne : fl b ≠ []) :
    find_bucket_go fl (fuel + 1) b = some b := by
  cases h : fl b with
  | nil => exact absurd h hne
  | cons a t => simp [find_bucket_go, hb, h]

/-- C4 (amended): `reclaim` followed by `alloc` of the same size returns a
block from the reclaimed block's size class only when floor-log2 and
ceil-log2 of the size agree, i.e. for power-of-two sizes; there it returns
the very block just reclaimed, popping it off that bucket.  (For other
sizes the allocation searches only buckets `≥ ceil-log2(size)`, which
excludes the reclaimed block's floor-log2 bucket, and bump-allocates on
miss.) -/
theorem arena_reclaim_alloc_pow2 (st : ArenaState) (addr n : Nat)
    (h4 : 4 ≤ n) (h31 : n ≤ 31) (haddr : addr < st.bump) :
    ∃ st2, arena_alloc (arena_reclaim st addr (2 ^ n)) (2 ^ n) =
        some (addr, st2) ∧ st2.freelists n = st.freelists n := by
  have h16 : ¬ (2 ^ n < 16 ∨ st.bump ≤ addr) := by
    push_neg
    refine ⟨?_, haddr⟩
    calc (16 : Nat) = 2 ^ 4 := by norm_num
    _ ≤ 2 ^ n := Nat.pow_le_pow_right (by norm_num) h4
  have hcls : get_size_class (2 ^ n) = n := get_size_class_pow n h4 h31
  have hfl : (arena_reclaim st addr (2 ^ n)).freelists n =
      addr :: st.freelists n := by
    simp [arena_reclaim, h16, hcls]
  have hsz : ¬ (2 ^ n = 0) := by simp
  have hfind : find_bucket_go (arena_reclaim st addr (2 ^ n)).freelists
      32 n = some n := by
    have h32 : (32 : Nat) = 31 + 1 := rfl
    rw [h32]
    exact find_bucket_go_hit _ 31 n (by omega) (by rw [hfl]; simp)
  refine ⟨{ arena_reclaim st addr (2 ^ n) with
    freelists := fun i => if i = n then st.freelists n
      else (arena_reclaim st addr (2 ^ n)).freelists i }, ?_, by simp⟩
  simp only [arena_alloc, try_alloc_from_freelist, if_neg hsz, hcls,
    gt_iff_lt, lt_self_iff_false, if_false, hfind, hfl]

theorem arena_reclaim_alloc_pow2_witness :
    ∃ st2, arena_alloc (arena_reclaim arenaEx 8 (2 ^ 4)) (2 ^ 4) =
        some (8, st2) ∧ st2.freelists 4 = arenaEx.freelists 4 :=
  arena_reclaim_alloc_pow2 arenaEx 8 4 (by decide) (by decide) (by decide)

/-! ## Host handling of VM results (repl.cpp `execute_sql_statements`,
lines 254-275)

After `vm_execute` the host inspects the result.  The C++ control flow is:

    if (vm_result != OK) {
      if (vm_result == ABORT) { catalog_reload(); }
      else { print error;
             if (in_explicit_transaction || injected_transaction) {
               pager_rollback(); catalog_reload(); }
             return false; }
    }
    if (injected_transaction) { pager_commit(); }

so the ABORT arm falls through to the commit of an injected transaction,
while the FAIL arm returns early.  The model records the externally
visible host actions in order. -/

inductive VM_RESULT
  | OK | ABORT | FAIL
  deriving DecidableEq, Repr

inductive HostAction
  | pager_rollback
  | pager_commit
  | catalog_reload
  | print_error
  deriving DecidableEq, Repr

/-- repl.cpp lines 254-275: the host actions taken after `vm_execute`
returns, given whether an explicit transaction is open and whether the
driver injected one around this statement. -/
def host_handle_vm_result (r : VM_RESULT)
    (in_explicit_transaction injected_transaction : Bool) :
    List HostAction :=
  match r with
  | VM_RESULT.OK =>
      if injected_transaction then [HostAction.pager_commit] else []
  | VM_RESULT.ABORT =>
      [HostAction.catalog_reload] ++
        (if injected_transaction then [HostAction.pager_commit] else [])
  | VM_RESULT.FAIL =>
      [HostAction.print_error] ++
        (if in_explicit_transaction || injected_transaction then
          [HostAction.pager_rollback, HostAction.catalog_reload] else [])

/-- C2 counterexample: on ABORT with an injected transaction the host does
NOT roll back — it reloads the catalog and then commits the injected
transaction; and on FAIL inside an explicit transaction the host does NOT
keep the catalog — it reloads it right after rolling back. -/
theorem host_abort_no_rollback_fail_reloads :
    HostAction.pager_rollback ∉
        host_handle_vm_result VM_RESULT.ABORT false true ∧
      HostAction.pager_commit ∈
        host_handle_vm_result VM_RESULT.ABORT false true ∧
      HostAction.catalog_reload ∈
        host_handle_vm_result VM_RESULT.FAIL true false := by
  decide

/-- C2 (amended): when `vm_execute` returns ABORT the host reloads the
catalog but performs no rollback (an injected transaction is still
committed); when it returns FAIL the host rolls back and ALSO reloads the
catalog, provided a transaction is active (explicit or injected) — with no
active transaction it only reports the error. -/
theorem host_handle_vm_result_spec
    (e i : Bool) :
    host_handle_vm_result VM_RESULT.ABORT e i =
        [HostAction.catalog_reload] ++
          (if i then [HostAction.pager_commit] else []) ∧
      host_handle_vm_result VM_RESULT.FAIL e i =
        [HostAction.print_error] ++
          (if e || i then
            [HostAction.pager_rollback, HostAction.catalog_reload]
          else []) ∧
      HostAction.pager_rollback ∉ host_handle_vm_result VM_RESULT.ABORT e i := by
  refine ⟨rfl, rfl, ?_⟩
  cases i <;> simp [host_handle_vm_result]

/-! ## Statement driver transaction injection (repl.cpp
`execute_sql_statements`, lines 189-280)

The driver walks the parsed statement list with a local
`in_explicit_transaction` flag (set by a BEGIN statement, cleared by
COMMIT/ROLLBACK, lines 207-211) and wraps every mutating statement that is
not under an explicit BEGIN in `pager_begin_transaction` /
`pager_commit` (lines 235-238 and 273-275).  The model records the pager
calls and statement executions in order, assuming every statement
succeeds (the claim is about the success path). -/

inductive STMT_TYPE
  | STMT_SELECT | STMT_INSERT | STMT_UPDATE | STMT_DELETE
  | STMT_CREATE_TABLE | STMT_DROP_TABLE
  | STMT_BEGIN | STMT_COMMIT | STMT_ROLLBACK
  deriving DecidableEq, Repr

open STMT_TYPE

/-- repl.cpp lines 216-226: the statement kinds that require a
transaction. -/
def needs_transaction : STMT_TYPE → Bool
  | STMT_INSERT | STMT_UPDATE | STMT_DELETE
  | STMT_CREATE_TABLE | STMT_DROP_TABLE => true
  | _ => false

inductive DriverEvent
  | pager_begin
  | exec (s : STMT_TYPE)
  | pager_commit
  deriving DecidableEq, Repr

/-- One loop iteration of `execute_sql_statements`: update the explicit
flag, then inject a transaction around a mutating statement when the flag
is off.  Returns the emitted events and the new flag. -/
def driver_step (e : Bool) (s : STMT_TYPE) : List DriverEvent × Bool :=
  let e2 := if s = STMT_BEGIN then true
    else if s = STMT_COMMIT ∨ s = STMT_ROLLBACK then false
    else e
  let inject := needs_transaction s && !e2
  ((if inject then [DriverEvent.pager_begin] else []) ++
      [DriverEvent.exec s] ++
      (if inject then [DriverEvent.pager_commit] else []),
    e2)

def driver_trace : List STMT_TYPE → Bool → List DriverEvent
  | [], _ => []
  | s :: rest, e =>
      (driver_step e s).1 ++ driver_trace rest (driver_step e s).2

/-- Whether a pager transaction is active after processing one event:
`pager_begin`/`pager_commit` toggle it directly, and executing a
BEGIN/COMMIT/ROLLBACK statement drives the pager through the
corresponding one-opcode VM program (spec section 4.6). -/
def txAfter (tx : Bool) : DriverEvent → Bool
  | DriverEvent.pager_begin => true
  | DriverEvent.pager_commit => false
  | DriverEvent.exec STMT_BEGIN => true
  | DriverEvent.exec STMT_COMMIT => false
  | DriverEvent.exec STMT_ROLLBACK => false
  | DriverEvent.exec _ => tx

/-- Scans a trace and checks that every executed mutating statement sees
an active transaction. -/
def check_trace : Bool → List DriverEvent → Bool
  | _, [] => true
  | tx, e :: rest =>
      (match e with
        | DriverEvent.exec s => !needs_transaction s || tx
        | _ => true) &&
      check_trace (txAfter tx e) rest

lemma check_trace_append (a b : List DriverEvent) (tx : Bool) :
    check_trace tx (a ++ b) =
      (check_trace tx a && check_trace (a.foldl txAfter tx) b) := by
  induction a generalizing tx with
  | nil => simp [check_trace]
  | cons e t ih =>
      simp only [List.cons_append, check_trace, List.foldl_cons,
        List.append_eq, ih, Bool.and_assoc]

lemma driver_trace_transactional (stmts : List STMT_TYPE) (e tx : Bool)
    (he : e = true → tx = true) :
    check_trace tx (driver_trace stmts e) = true := by
  induction stmts generalizing e tx with
  | nil => rfl
  | cons s rest ih =>
      show check_trace tx ((driver_step e s).1 ++
        driver_trace rest (driver_step e s).2) = true
      rw [check_trace_append, Bool.and_eq_true]
      constructor
      · cases s <;> cases e <;>
          simp_all [driver_step, check_trace, txAfter, needs_transaction]
      · refine ih _ _ ?_
        cases s <;> cases e <;>
          simp_all [driver_step, txAfter, needs_transaction]

/-- C7: (1) starting outside any transaction, every mutating statement
(INSERT, UPDATE, DELETE, CREATE TABLE, DROP TABLE) executed by the driver
sees an active pager transaction; (2) when no explicit BEGIN is active the
driver emits exactly `pager_begin_transaction`, the execution, then
`pager_commit` for such a statement. -/
theorem driver_mutations_in_transaction :
    (∀ stmts : List STMT_TYPE,
        check_trace false (driver_trace stmts false) = true) ∧
      (∀ (e : Bool) (s : STMT_TYPE), needs_transaction s = true →
        e = false →
        (driver_step e s).1 =
          [DriverEvent.pager_begin, DriverEvent.exec s,
            DriverEvent.pager_commit]) := by
  constructor
  · intro stmts
    exact driver_trace_transactional stmts false false (fun h => h)
  · intro e s hs he
    subst he
    cases s <;> simp_all [driver_step, needs_transaction]

theorem driver_mutations_in_transaction_witness :
    check_trace false
        (driver_trace [STMT_CREATE_TABLE, STMT_BEGIN, STMT_INSERT,
          STMT_COMMIT, STMT_DELETE] false) = true ∧
      (driver_step false STMT_INSERT).1 =
        [DriverEvent.pager_begin, DriverEvent.exec STMT_INSERT,
          DriverEvent.pager_commit] :=
  ⟨driver_mutations_in_transaction.1 _,
    driver_mutations_in_transaction.2 false STMT_INSERT rfl rfl⟩

/-! ## Pager page allocation and master-catalog bootstrap
(catalog.cpp `bootstrap_master`, lines 81-115)

pager.cpp is not in the source tree; the allocation model follows spec
section 4.2 ("`allocate_page` pops the head or extends the file") and
section 6 ("Page 0 is a metadata/header page"). -/

/-- Modelled from the spec: the pager's page-allocation state.  Page 0 is
the header page, so a freshly created database file has `num_pages = 1`
and an empty free list. -/
structure PagerState where
  num_pages : Nat
  free_list : List Nat
  deriving Repr, DecidableEq

/-- Modelled from the spec: `allocate_page` pops the free-list head or
extends the file by one page. -/
def allocate_page (p : PagerState) : Nat × PagerState :=
  match p.free_list with
  | f :: rest => (f, { p with free_list := rest })
  | [] => (p.num_pages, { p with num_pages := p.num_pages + 1 })

/-- A new (empty) database right after `pager_open` created it: only the
header page exists. -/
def freshPager : PagerState := { num_pages := 1, free_list := [] }

/-- The btree handle (btree.hpp lines 13-31), reduced to the fields the
claims consult. -/
structure btree_t where
  root_page_index : Nat
  node_key_type : DataType
  record_size : Nat
  deriving Repr, DecidableEq

/-- Modelled from the spec: `bt_create` (btree.cpp is not in the source
tree) captures key type and record size and, when `allocate_node` is set,
allocates the root page from the pager (spec sections 4.3 and 9). -/
def bt_create (key : DataType) (record_size : Nat) (allocate_node : Bool)
    (p : PagerState) : btree_t × PagerState :=
  if allocate_node then
    let (pg, p2) := allocate_page p
    ({ root_page_index := pg, node_key_type := key,
       record_size := record_size }, p2)
  else
    ({ root_page_index := 0, node_key_type := key,
       record_size := record_size }, p)

def MASTER_CATALOG : String := "master_catalog"

/-- catalog.cpp lines 85-89: the master catalog schema. -/
def master_columns : List (String × DataType) :=
  [("id", TYPE_U32), ("name", TYPE_CHAR32), ("tbl_name", TYPE_CHAR32),
   ("rootpage", TYPE_U32), ("sql", TYPE_CHAR256)]

/-- catalog.cpp `bootstrap_master` on a new database (lines 98-107):
begin a transaction, `bt_create` the master tree with the layout of
`master_columns` and `allocate_node = true`, and assert its root page
is 1.  Returns the created tree and the pager state. -/
def bootstrap_master_new (p : PagerState) : btree_t × PagerState :=
  let layout := tuple_format_from_types (master_columns.map Prod.snd)
  bt_create layout.key_type layout.record_size true p

/-- C8: on a new (empty) database file — header page 0 only — the first
page allocation yields page 1, so the B+Tree created by `bootstrap_master`
has `root_page_index = 1` and the bootstrap assertion holds. -/
theorem bootstrap_master_root_page_one :
    (allocate_page freshPager).1 = 1 ∧
      (bootstrap_master_new freshPager).1.root_page_index = 1 ∧
      (bootstrap_master_new freshPager).1.node_key_type = TYPE_U32 := by
  refine ⟨rfl, rfl, rfl⟩

/-! ## Compiler AST and bytecode (compile.hpp, compile.cpp)

The AST shape is the one the compiler consumes (spec section 6): column
references carry the resolved column index, literals carry the resolved
type and value, binary operators cover comparisons and AND/OR, and NOT is
the only unary operator the compiler handles (`EXPR_NULL` asserts in the
source and is omitted).  Instructions mirror the `*_MAKE` constructors in
vm.hpp as used by compile.hpp; unresolved jump targets are `none` (the
C++ uses `-1`) and `resolve_labels` patches them.  Labels are the values
of the builder's `label_counter` (the C++ formats the counter into a
string `.Ln`). -/

inductive EXPR_OP
  | OP_EQ | OP_NE | OP_LT | OP_LE | OP_GT | OP_GE | OP_AND | OP_OR
  deriving DecidableEq, Repr

inductive expr_node
  | EXPR_COLUMN (column_index : Nat)
  | EXPR_LIT_U32 (resolved_type : DataType) (int_val : Nat)
  | EXPR_LIT_CHAR (resolved_type : DataType) (str_val : String)
  | EXPR_BINARY_OP (op : EXPR_OP) (left right : expr_node)
  | EXPR_NOT (operand : expr_node)
  deriving DecidableEq, Repr

open expr_node EXPR_OP

inductive ARITH_OP
  | ARITH_ADD | ARITH_SUB | ARITH_MUL | ARITH_DIV
  deriving DecidableEq, Repr

inductive LOGIC_OP
  | LOGIC_AND | LOGIC_OR
  deriving DecidableEq, Repr

/-- A register payload: the C++ stores a type tag plus a pointer to bytes;
the model stores the value itself.  `VPtr` stands for an opaque pointer
payload (`load_ptr` of the catalog's `next_key` slot). -/
inductive typed_value
  | VInt (n : Nat)
  | VStr (s : String)
  | VPtr
  deriving DecidableEq, Repr

inductive HostFn
  | fn_create_relation
  | fn_drop_relation
  deriving DecidableEq, Repr

/-- compile.cpp `btree_cursor_from_relation` /
`red_black_cursor_from_format`: a cursor context binds either a table's
B+Tree (identified here by table name) or an ephemeral red-black tree. -/
inductive cursor_context
  | BPLUS (table_name : String)
  | RED_BLACK (allow_duplicates : Bool)
  deriving DecidableEq, Repr

inductive vm_instruction
  | LOAD (dest : Nat) (ty : DataType) (v : typed_value)
  | MOVE (dest src : Nat)
  | ARITHMETIC (dest left right : Nat) (op : ARITH_OP)
  | TEST (dest left right : Nat) (op : COMPARISON_OP)
  | LOGIC (dest left right : Nat) (op : LOGIC_OP)
  | GOTO (target : Option Nat)
  | JUMPIF (reg : Nat) (target : Option Nat) (jump_if_true : Bool)
  | OPEN (cursor : Nat) (ctx : cursor_context)
  | CLOSE (cursor : Nat)
  | REWIND (cursor result : Nat) (to_end : Bool)
  | STEP (cursor result : Nat) (forward : Bool)
  | SEEK (cursor key result : Nat) (op : COMPARISON_OP)
  | COLUMN (cursor col dest : Nat)
  | INSERT (cursor start count : Nat)
  | UPDATE (cursor reg : Nat)
  | DELETE (cursor valid occurred : Nat)
  | RESULT (start count : Nat)
  | FUNCTION (result arg_start arg_count : Nat) (fn : HostFn)
  | BEGIN_TXN
  | COMMIT_TXN
  | ROLLBACK_TXN
  | HALT (exit_code : Nat)
  deriving DecidableEq, Repr

/-- compile.hpp `program_builder` (lines 111-142): instruction vector,
labels, pending patches, the register allocator (`next_free` plus scope
stack), cursor counter and label counter. -/
structure program_builder where
  instructions : List vm_instruction := []
  labels : List (Nat × Nat) := []
  patches_needed : List (Nat × Nat) := []
  next_free : Nat := 0
  scope_stack : List Nat := []
  next_cursor : Nat := 0
  label_counter : Nat := 0
  deriving Repr

def pb_emit (i : vm_instruction) (p : program_builder) : program_builder :=
  { p with instructions := p.instructions ++ [i] }

def pb_unique_label (p : program_builder) : Nat × program_builder :=
  (p.label_counter, { p with label_counter := p.label_counter + 1 })

def pb_define_label (name : Nat) (p : program_builder) : program_builder :=
  { p with labels := p.labels ++ [(name, p.instructions.length)] }

def pb_jump_to (label : Nat) (p : program_builder) : program_builder :=
  pb_emit (vm_instruction.GOTO none)
    { p with patches_needed :=
        p.patches_needed ++ [(p.instructions.length, label)] }

def pb_jumpif (test_reg : Nat) (label : Nat) (jump_if_true : Bool)
    (p : program_builder) : program_builder :=
  pb_emit (vm_instruction.JUMPIF test_reg none jump_if_true)
    { p with patches_needed :=
        p.patches_needed ++ [(p.instructions.length, label)] }

/-- Patch one jump instruction with its resolved target (the C++ switch
in `resolve_labels`; non-jump opcodes are untouched). -/
def patch_instr (i : vm_instruction) (pc : Nat) : vm_instruction :=
  match i with
  | vm_instruction.GOTO _ => vm_instruction.GOTO (some pc)
  | vm_instruction.JUMPIF r _ f => vm_instruction.JUMPIF r (some pc) f
  | other => other

/-- Label lookup: first entry with the name (the C++ scans `labels` in
order and breaks on the first `strcmp` hit). -/
def lookup_label (labels : List (Nat × Nat)) (name : Nat) : Option Nat :=
  match labels with
  | [] => none
  | (n, pc) :: rest =>
      if n = name then some pc else lookup_label rest name

def apply_patch (labels : List (Nat × Nat)) (ins : List vm_instruction)
    (pa : Nat × Nat) : List vm_instruction :=
  match lookup_label labels pa.2 with
  | some pc =>
      ins.set pa.1 (patch_instr (ins.getD pa.1 (vm_instruction.HALT 0)) pc)
  | none => ins

def pb_resolve_labels (p : program_builder) : program_builder :=
  { p with
    instructions :=
      p.patches_needed.foldl (apply_patch p.labels) p.instructions }

def pb_allocate (p : program_builder) : Nat × program_builder :=
  (p.next_free, { p with next_free := p.next_free + 1 })

def pb_allocate_range (count : Nat) (p : program_builder) :
    Nat × program_builder :=
  (p.next_free, { p with next_free := p.next_free + count })

def pb_push_scope (p : program_builder) : program_builder :=
  { p with scope_stack := p.scope_stack ++ [p.next_free] }

def pb_pop_scope (p : program_builder) : program_builder :=
  match p.scope_stack.getLast? with
  | some m =>
      { p with next_free := m, scope_stack := p.scope_stack.dropLast }
  | none => p

def pb_mark (p : program_builder) : Nat := p.next_free

def pb_restore (m : Nat) (p : program_builder) : program_builder :=
  { p with next_free := m }

def pb_halt (exit_code : Nat) (p : program_builder) : program_builder :=
  pb_emit (vm_instruction.HALT exit_code) p

structure while_context where
  loop_label : Nat
  end_label : Nat
  condition_reg : Nat
  saved_reg_mark : Nat

structure conditional_context where
  else_label : Nat
  end_label : Nat
  saved_reg_mark : Nat
  has_else : Bool

def pb_begin_while (condition_reg : Nat) (jump_on : Bool)
    (p : program_builder) : while_context × program_builder :=
  let (loop_label, p1) := pb_unique_label p
  let (end_label, p2) := pb_unique_label p1
  let p3 := pb_define_label loop_label p2
  let p4 := pb_jumpif condition_reg end_label jump_on p3
  ({ loop_label := loop_label, end_label := end_label,
     condition_reg := condition_reg, saved_reg_mark := pb_mark p4 }, p4)

def pb_end_while (ctx : while_context) (p : program_builder) :
    program_builder :=
  pb_restore ctx.saved_reg_mark
    (pb_define_label ctx.end_label (pb_jump_to ctx.loop_label p))

def pb_begin_if (test_reg : Nat) (p : program_builder) :
    conditional_context × program_builder :=
  let (else_label, p1) := pb_unique_label p
  let (end_label, p2) := pb_unique_label p1
  let p3 := pb_jumpif test_reg else_label false p2
  ({ else_label := else_label, end_label := end_label,
     saved_reg_mark := pb_mark p3, has_else := false }, p3)

def pb_begin_else (ctx : conditional_context) (p : program_builder) :
    conditional_context × program_builder :=
  ({ ctx with has_else := true },
    pb_define_label ctx.else_label (pb_jump_to ctx.end_label p))

def pb_end_if (ctx : conditional_context) (p : program_builder) :
    program_builder :=
  let p1 := if ctx.has_else then p else pb_define_label ctx.else_label p
  pb_restore ctx.saved_reg_mark (pb_define_label ctx.end_label p1)

def pb_load (ty : DataType) (v : Nat) (dest : Option Nat)
    (p : program_builder) : Nat × program_builder :=
  let (d, p1) := match dest with
    | some d => (d, p)
    | none => pb_allocate p
  (d, pb_emit (vm_instruction.LOAD d ty (typed_value.VInt v)) p1)

def pb_load_string (ty : DataType) (s : String) (dest : Option Nat)
    (p : program_builder) : Nat × program_builder :=
  let (d, p1) := match dest with
    | some d => (d, p)
    | none => pb_allocate p
  (d, pb_emit (vm_instruction.LOAD d ty (typed_value.VStr s)) p1)

def pb_load_ptr (dest : Option Nat) (p : program_builder) :
    Nat × program_builder :=
  let (d, p1) := match dest with
    | some d => (d, p)
    | none => pb_allocate p
  (d, pb_emit (vm_instruction.LOAD d TYPE_I64 typed_value.VPtr) p1)

def pb_move (src : Nat) (dest : Option Nat) (p : program_builder) :
    Nat × program_builder :=
  let (d, p1) := match dest with
    | some d => (d, p)
    | none => pb_allocate p
  (d, pb_emit (vm_instruction.MOVE d src) p1)

def pb_arith (l r : Nat) (op : ARITH_OP) (dest : Option Nat)
    (p : program_builder) : Nat × program_builder :=
  let (d, p1) := match dest with
    | some d => (d, p)
    | none => pb_allocate p
  (d, pb_emit (vm_instruction.ARITHMETIC d l r op) p1)

def pb_test (l r : Nat) (op : COMPARISON_OP) (dest : Option Nat)
    (p : program_builder) : Nat × program_builder :=
  let (d, p1) := match dest with
    | some d => (d, p)
    | none => pb_allocate p
  (d, pb_emit (vm_instruction.TEST d l r op) p1)

def pb_logic (l r : Nat) (op : LOGIC_OP) (dest : Option Nat)
    (p : program_builder) : Nat × program_builder :=
  let (d, p1) := match dest with
    | some d => (d, p)
    | none => pb_allocate p
  (d, pb_emit (vm_instruction.LOGIC d l r op) p1)

def pb_open_cursor (ctx : cursor_context) (p : program_builder) :
    Nat × program_builder :=
  (p.next_cursor,
    pb_emit (vm_instruction.OPEN p.next_cursor ctx)
      { p with next_cursor := p.next_cursor + 1 })

def pb_close_cursor (cursor : Nat) (p : program_builder) :
    program_builder :=
  pb_emit (vm_instruction.CLOSE cursor) p

def pb_rewind (cursor : Nat) (to_end : Bool) (result : Option Nat)
    (p : program_builder) : Nat × program_builder :=
  let (d, p1) := match result with
    | some d => (d, p)
    | none => pb_allocate p
  (d, pb_emit (vm_instruction.REWIND cursor d to_end) p1)

def pb_first (cursor : Nat) (result : Option Nat) (p : program_builder) :
    Nat × program_builder :=
  pb_rewind cursor false result p

def pb_last (cursor : Nat) (result : Option Nat) (p : program_builder) :
    Nat × program_builder :=
  pb_rewind cursor true result p

def pb_step (cursor : Nat) (result : Option Nat) (forward : Bool)
    (p : program_builder) : Nat × program_builder :=
  let (d, p1) := match result with
    | some d => (d, p)
    | none => pb_allocate p
  (d, pb_emit (vm_instruction.STEP cursor d forward) p1)

def pb_seek (cursor key_reg : Nat) (op : COMPARISON_OP)
    (result : Option Nat) (p : program_builder) : Nat × program_builder :=
  let (d, p1) := match result with
    | some d => (d, p)
    | none => pb_allocate p
  (d, pb_emit (vm_instruction.SEEK cursor key_reg d op) p1)

def pb_get_column (cursor col : Nat) (dest : Option Nat)
    (p : program_builder) : Nat × program_builder :=
  let (d, p1) := match dest with
    | some d => (d, p)
    | none => pb_allocate p
  (d, pb_emit (vm_instruction.COLUMN cursor col d) p1)

/-- compile.hpp `get_columns`: allocate a contiguous range and emit one
COLUMN per column. -/
def pb_get_columns (cursor start_col count : Nat)
    (p : program_builder) : Nat × program_builder :=
  let (first, p1) := pb_allocate_range count p
  (first, (List.range count).foldl
    (fun q i =>
      pb_emit (vm_instruction.COLUMN cursor (start_col + i) (first + i)) q)
    p1)

def pb_insert_record (cursor key_reg record_count : Nat)
    (p : program_builder) : program_builder :=
  pb_emit (vm_instruction.INSERT cursor key_reg record_count) p

def pb_delete_record (cursor : Nat) (p : program_builder) :
    Nat × Nat × program_builder :=
  let (occurred, p1) := pb_allocate p
  let (valid, p2) := pb_allocate p1
  (occurred, valid,
    pb_emit (vm_instruction.DELETE cursor valid occurred) p2)

def pb_update_record (cursor record_reg : Nat) (p : program_builder) :
    program_builder :=
  pb_emit (vm_instruction.UPDATE cursor record_reg) p

def pb_result (first_reg reg_count : Nat) (p : program_builder) :
    program_builder :=
  pb_emit (vm_instruction.RESULT first_reg reg_count) p

def pb_call_function (fn : HostFn) (first_arg_reg arg_count : Nat)
    (result : Option Nat) (p : program_builder) : Nat × program_builder :=
  let (d, p1) := match result with
    | some d => (d, p)
    | none => pb_allocate p
  (d, pb_emit (vm_instruction.FUNCTION d first_arg_reg arg_count fn) p1)

/-! ## Expression compilation and WHERE analysis (compile.cpp lines
57-272) -/

/-- compile.cpp `compile_literal` (lines 57-67): load the literal value
with its resolved type (non-literals assert in the source; the model
returns register 0 unchanged there, a case the compiler never reaches). -/
def compile_literal (e : expr_node) (p : program_builder) :
    Nat × program_builder :=
  match e with
  | EXPR_LIT_U32 rt v => pb_load rt v none p
  | EXPR_LIT_CHAR rt s => pb_load_string rt s none p
  | _ => (0, p)

/-- compile.cpp `compile_expr` (lines 69-119). -/
def compile_expr (e : expr_node) (cursor_id : Nat)
    (p : program_builder) : Nat × program_builder :=
  match e with
  | EXPR_COLUMN i => pb_get_column cursor_id i none p
  | EXPR_LIT_U32 _ _ => compile_literal e p
  | EXPR_LIT_CHAR _ _ => compile_literal e p
  | EXPR_BINARY_OP op l r =>
      let (left_reg, p1) := compile_expr l cursor_id p
      let (right_reg, p2) := compile_expr r cursor_id p1
      match op with
      | OP_EQ => pb_test left_reg right_reg COMPARISON_OP.EQ none p2
      | OP_NE => pb_test left_reg right_reg COMPARISON_OP.NE none p2
      | OP_LT => pb_test left_reg right_reg COMPARISON_OP.LT none p2
      | OP_LE => pb_test left_reg right_reg COMPARISON_OP.LE none p2
      | OP_GT => pb_test left_reg right_reg COMPARISON_OP.GT none p2
      | OP_GE => pb_test left_reg right_reg COMPARISON_OP.GE none p2
      | OP_AND => pb_logic left_reg right_reg LOGIC_OP.LOGIC_AND none p2
      | OP_OR => pb_logic left_reg right_reg LOGIC_OP.LOGIC_OR none p2
  | EXPR_NOT operand =>
      let (operand_reg, p1) := compile_expr operand cursor_id p
      let (one, p2) := pb_load TYPE_U32 1 none p1
      pb_arith one operand_reg ARITH_OP.ARITH_SUB none p2

inductive SEEK_STRATEGY_TYPE
  | STRATEGY_FULL_SCAN
  | STRATEGY_SEEK_SCAN
  | STRATEGY_DIRECT_LOOKUP
  deriving DecidableEq, Repr

open SEEK_STRATEGY_TYPE

structure seek_strategy where
  type : SEEK_STRATEGY_TYPE
  op : COMPARISON_OP
  key_expr : Option expr_node
  scan_forward : Bool
  deriving DecidableEq, Repr

def full_scan_strategy : seek_strategy :=
  { type := STRATEGY_FULL_SCAN, op := COMPARISON_OP.EQ,
    key_expr := none, scan_forward := true }

/-- Is `e` a literal node (the C++ `right->type == EXPR_LITERAL`)? -/
def is_literal : expr_node → Bool
  | EXPR_LIT_U32 _ _ => true
  | EXPR_LIT_CHAR _ _ => true
  | _ => false

/-- Is `e` a column reference with resolved index 0 (the primary key)? -/
def is_pk_column : expr_node → Bool
  | EXPR_COLUMN 0 => true
  | _ => false

/-- compile.cpp `analyze_where_clause` (lines 192-272) on a non-null tree
and table.  The C++ mutates the tree in place; the model returns the
strategy together with the rewritten tree.  A recognised PK predicate is
replaced by the literal `1` (true); in the AND case the whole node is
overwritten by the sibling of the side that produced the strategy.  The
op switch's `default` returns the FULL_SCAN strategy without entering the
AND case, exactly as the early `return` in the source does. -/
def analyze_expr : expr_node → seek_strategy × expr_node
  | EXPR_BINARY_OP op l r =>
      if is_pk_column l && is_literal r then
        match op with
        | OP_EQ =>
            ({ type := STRATEGY_DIRECT_LOOKUP, op := COMPARISON_OP.EQ,
               key_expr := some r, scan_forward := true },
              EXPR_LIT_U32 TYPE_U32 1)
        | OP_LT =>
            ({ type := STRATEGY_SEEK_SCAN, op := COMPARISON_OP.LT,
               key_expr := some r, scan_forward := false },
              EXPR_LIT_U32 TYPE_U32 1)
        | OP_LE =>
            ({ type := STRATEGY_SEEK_SCAN, op := COMPARISON_OP.LE,
               key_expr := some r, scan_forward := false },
              EXPR_LIT_U32 TYPE_U32 1)
        | OP_GT =>
            ({ type := STRATEGY_SEEK_SCAN, op := COMPARISON_OP.GT,
               key_expr := some r, scan_forward := true },
              EXPR_LIT_U32 TYPE_U32 1)
        | OP_GE =>
            ({ type := STRATEGY_SEEK_SCAN, op := COMPARISON_OP.GE,
               key_expr := some r, scan_forward := true },
              EXPR_LIT_U32 TYPE_U32 1)
        | _ => (full_scan_strategy, EXPR_BINARY_OP op l r)
      else if op = OP_AND then
        let ls := analyze_expr l
        if ls.1.type ≠ STRATEGY_FULL_SCAN then (ls.1, r)
        else
          let rs := analyze_expr r
          if rs.1.type ≠ STRATEGY_FULL_SCAN then (rs.1, l)
          else (full_scan_strategy, EXPR_BINARY_OP op l r)
      else (full_scan_strategy, EXPR_BINARY_OP op l r)
  | e => (full_scan_strategy, e)

/-- compile.cpp `analyze_where_clause` including the null checks (the
table is always resolved when the compiler runs). -/
def analyze_where_clause : Option expr_node →
    seek_strategy × Option expr_node
  | none => (full_scan_strategy, none)
  | some w =>
      let (s, w2) := analyze_expr w
      (s, some w2)

/-! ## SELECT compilation (compile.cpp lines 274-412) -/

/-- The fields of `select_stmt` (with its `sem` annotation) that
`compile_select` consumes: the WHERE tree, the resolved output column
indices, whether an ORDER BY is present (`sem.rb_format` non-empty), the
resolved ORDER BY column and its direction. -/
structure select_stmt_t where
  table_name : String
  where_clause : Option expr_node
  column_indices : List Nat
  has_order_by : Bool
  order_by_index : Nat
  order_desc : Bool
  deriving DecidableEq, Repr

/-- Emit the COLUMN reads of the direct-lookup result row (the `for` loop
at compile.cpp lines 297-300). -/
def emit_result_columns (cursor : Nat) (cols : List Nat)
    (result_start : Nat) (p : program_builder) : program_builder :=
  (List.range cols.length).foldl
    (fun q i =>
      (pb_get_column cursor (cols.getD i 0) (some (result_start + i)) q).2)
    p

/-- compile.cpp `compile_select`. -/
def compile_select (stmt : select_stmt_t) : List vm_instruction :=
  let p0 : program_builder := {}
  let (table_cursor, p1) :=
    pb_open_cursor (cursor_context.BPLUS stmt.table_name) p0
  let (strategy, w2) := analyze_where_clause stmt.where_clause
  if strategy.type = STRATEGY_DIRECT_LOOKUP then
    let (key_reg, p2) :=
      compile_literal (strategy.key_expr.getD (EXPR_LIT_U32 TYPE_U32 0)) p1
    let (found, p3) := pb_seek table_cursor key_reg COMPARISON_OP.EQ none p2
    let (found_block, p4) := pb_begin_if found p3
    let result_count := stmt.column_indices.length
    let (result_start, p5) := pb_allocate_range result_count p4
    let p6 := emit_result_columns table_cursor stmt.column_indices
      result_start p5
    let p7 := pb_result result_start result_count p6
    let p8 := pb_end_if found_block p7
    let p9 := pb_close_cursor table_cursor p8
    let p10 := pb_halt 0 p9
    (pb_resolve_labels p10).instructions
  else
    let result_count := stmt.column_indices.length +
      (if stmt.has_order_by then 1 else 0)
    let (rb_cursor, p2) :=
      if stmt.has_order_by then
        pb_open_cursor (cursor_context.RED_BLACK true) p1
      else (0, p1)
    let (at_end_register, p3) :=
      if strategy.type = STRATEGY_SEEK_SCAN then
        let (key_reg, pa) :=
          compile_literal (strategy.key_expr.getD (EXPR_LIT_U32 TYPE_U32 0))
            p2
        pb_seek table_cursor key_reg strategy.op none pa
      else
        pb_first table_cursor none p2
    let (scan_loop, p4) := pb_begin_while at_end_register false p3
    let p5 := pb_push_scope p4
    let (where_ctx, p6) :=
      match w2 with
      | some w =>
          let (where_result, pa) := compile_expr w table_cursor p5
          let (ctx, pb) := pb_begin_if where_result pa
          (some ctx, pb)
      | none => (none, p5)
    let (result_start, p7) := pb_allocate_range result_count p6
    let p8 :=
      if stmt.has_order_by then
        (pb_get_column table_cursor stmt.order_by_index
          (some result_start) p7).2
      else p7
    let offset := if stmt.has_order_by then 1 else 0
    let p9 := (List.range (result_count - offset)).foldl
      (fun q i =>
        (pb_get_column table_cursor (stmt.column_indices.getD i 0)
          (some (result_start + offset + i)) q).2)
      p8
    let p10 :=
      if stmt.has_order_by then
        pb_insert_record rb_cursor result_start result_count p9
      else
        pb_result result_start result_count p9
    let p11 :=
      match where_ctx with
      | some ctx => pb_end_if ctx p10
      | none => p10
    let p12 :=
      if strategy.type = STRATEGY_SEEK_SCAN && !strategy.scan_forward then
        (pb_step table_cursor (some at_end_register) false p11).2
      else
        (pb_step table_cursor (some at_end_register) true p11).2
    let p13 := pb_pop_scope p12
    let p14 := pb_end_while scan_loop p13
    let p15 := pb_close_cursor table_cursor p14
    let p16 :=
      if stmt.has_order_by then
        let (rb_at_end, q1) :=
          if stmt.order_desc then pb_last rb_cursor none p15
          else pb_first rb_cursor none p15
        let (output_loop, q2) := pb_begin_while rb_at_end false q1
        let q3 := pb_push_scope q2
        let output_count := stmt.column_indices.length
        let (output_start, q4) := pb_get_columns rb_cursor 1 output_count q3
        let q5 := pb_result output_start output_count q4
        let q6 :=
          if stmt.order_desc then
            (pb_step rb_cursor (some rb_at_end) false q5).2
          else
            (pb_step rb_cursor (some rb_at_end) true q5).2
        let q7 := pb_pop_scope q6
        let q8 := pb_end_while output_loop q7
        pb_close_cursor rb_cursor q8
      else p15
    let p17 := pb_halt 0 p16
    (pb_resolve_labels p17).instructions

/-! ## CREATE TABLE compilation (compile.cpp lines 557-599) and the
`vmfunc_create_relation` host function (lines 121-142) -/

/-- compile.cpp `compile_create_table`: load the table name, call the
create-relation host function, open the master catalog, build the
five-column row `{next_id, name, name, root_page, sql}` in a contiguous
register range, insert it, close, halt.  The compile-time
`type_increment` of the catalog's `next_key` touches host state, not the
program, and is not an instruction. -/
def compile_create_table (table_name sql : String) :
    List vm_instruction :=
  let p0 : program_builder := {}
  let (table_name_reg, p1) :=
    pb_load_string TYPE_CHAR32 table_name none p0
  let (root_page_reg, p2) :=
    pb_call_function HostFn.fn_create_relation table_name_reg 1 none p1
  let (master_cursor, p3) :=
    pb_open_cursor (cursor_context.BPLUS MASTER_CATALOG) p2
  let (row_start, p4) := pb_allocate_range 5 p3
  let p5 := (pb_load_ptr (some row_start) p4).2
  let p6 := (pb_load_string TYPE_CHAR32 table_name
    (some (row_start + 1)) p5).2
  let p7 := (pb_load_string TYPE_CHAR32 table_name
    (some (row_start + 2)) p6).2
  let p8 := (pb_move root_page_reg (some (row_start + 3)) p7).2
  let p9 := (pb_load_string TYPE_CHAR256 sql (some (row_start + 4)) p8).2
  let p10 := pb_insert_record master_cursor row_start 5 p9
  let p11 := pb_close_cursor master_cursor p10
  let p12 := pb_halt 0 p11
  (pb_resolve_labels p12).instructions

/-- The catalog entry for a relation, reduced to what the claims consult:
its columns and the root page of its B+Tree storage (0 before the storage
exists). -/
structure relation_t where
  columns : List (String × DataType)
  root_page : Nat
  deriving DecidableEq, Repr

def catalog_get (cat : List (String × relation_t)) (n : String) :
    Option relation_t :=
  match cat with
  | [] => none
  | (m, r) :: rest => if m = n then some r else catalog_get rest n

def catalog_set_root : List (String × relation_t) → String → Nat →
    List (String × relation_t)
  | [], _, _ => []
  | (m, r) :: rest, n, root =>
      (if m = n then (m, { r with root_page := root }) else (m, r)) ::
        catalog_set_root rest n root

/-- compile.cpp `vmfunc_create_relation`: the table schema is already in
the catalog (the source asserts this); create its B+Tree — which
allocates the root page — install it on the catalog entry, and return the
root page number.  `bt_clear`/pager plumbing beyond page allocation is
modelled from the spec since btree.cpp is not in the source tree. -/
def vmfunc_create_relation (cat : List (String × relation_t))
    (p : PagerState) (name : String) :
    Option (Nat × List (String × relation_t) × PagerState) :=
  match catalog_get cat name with
  | none => none
  | some rel =>
      let layout := tuple_format_from_types (rel.columns.map Prod.snd)
      let (bt, p2) := bt_create layout.key_type layout.record_size true p
      some (bt.root_page_index,
        catalog_set_root cat name bt.root_page_index, p2)

lemma catalog_get_set_root (cat : List (String × relation_t))
    (n : String) (root : Nat) :
    catalog_get (catalog_set_root cat n root) n =
      (catalog_get cat n).map (fun r => { r with root_page := root }) := by
  induction cat with
  | nil => rfl
  | cons e rest ih =>
      obtain ⟨m, r⟩ := e
      by_cases h : m = n
      · simp only [catalog_set_root, if_pos h]
        simp only [catalog_get, if_pos h]
        rfl
      · simp only [catalog_set_root, if_neg h]
        simp only [catalog_get, if_neg h]
        exact ih

/-- C6: compiling CREATE TABLE yields exactly the program that (1) calls
the create-relation host function (instruction 1) before (2) the single
INSERT of the five-register row `{next_id, name, name, root_page, sql}`
into the master catalog (instruction 8) — register 2 holds the catalog's
next id, 3 and 4 the name, 5 the root page returned by the host call, 6
the original SQL text; the master catalog columns are
`(id U32, name CHAR32, tbl_name CHAR32, rootpage U32, sql CHAR256)`; and
the host function creates a new B+Tree whose root page is freshly
allocated and installs it on the relation's catalog entry. -/
theorem compile_create_table_correct (name sql : String) :
    compile_create_table name sql =
      [vm_instruction.LOAD 0 TYPE_CHAR32 (typed_value.VStr name),
       vm_instruction.FUNCTION 1 0 1 HostFn.fn_create_relation,
       vm_instruction.OPEN 0 (cursor_context.BPLUS MASTER_CATALOG),
       vm_instruction.LOAD 2 TYPE_I64 typed_value.VPtr,
       vm_instruction.LOAD 3 TYPE_CHAR32 (typed_value.VStr name),
       vm_instruction.LOAD 4 TYPE_CHAR32 (typed_value.VStr name),
       vm_instruction.MOVE 5 1,
       vm_instruction.LOAD 6 TYPE_CHAR256 (typed_value.VStr sql),
       vm_instruction.INSERT 0 2 5,
       vm_instruction.CLOSE 0,
       vm_instruction.HALT 0] ∧
      master_columns.map Prod.snd =
        [TYPE_U32, TYPE_CHAR32, TYPE_CHAR32, TYPE_U32, TYPE_CHAR256] ∧
      (∀ (cat : List (String × relation_t)) (p : PagerState)
          (rel : relation_t), catalog_get cat name = some rel →
        vmfunc_create_relation cat p name =
            some ((allocate_page p).1,
              catalog_set_root cat name (allocate_page p).1,
              (allocate_page p).2) ∧
          catalog_get (catalog_set_root cat name (allocate_page p).1)
              name =
            some { rel with root_page := (allocate_page p).1 }) := by
  refine ⟨rfl, rfl, ?_⟩
  intro cat p rel hget
  constructor
  · simp [vmfunc_create_relation, hget, bt_create]
  · rw [catalog_get_set_root, hget]
    rfl

def relEx : relation_t :=
  { columns := [("k", TYPE_U32), ("v", TYPE_CHAR32)], root_page := 0 }

theorem compile_create_table_correct_witness :
    vmfunc_create_relation [("users", relEx)] freshPager "users" =
        some ((allocate_page freshPager).1,
          catalog_set_root [("users", relEx)] "users"
            (allocate_page freshPager).1,
          (allocate_page freshPager).2) ∧
      catalog_get
          (catalog_set_root [("users", relEx)] "users"
            (allocate_page freshPager).1) "users" =
        some { relEx with root_page := (allocate_page freshPager).1 } :=
  (compile_create_table_correct "users"
    "CREATE TABLE users (k INT, v TEXT)").2.2
    [("users", relEx)] freshPager relEx rfl

/-! ## A register VM executing compiled programs

Modelled from the spec: vm.cpp is not in the source tree; the opcode
semantics follow the table in spec section 4.5 and the seek semantics in
section 4.3.  Tables are supplied by an environment mapping a table name
to its rows (each row is the key followed by the record columns, in
ascending key order, as the B+Tree stores them).  Opcodes the compiled
SELECT programs below do not use (INSERT, UPDATE, DELETE, FUNCTION,
transactions) stop execution with an error. -/

structure vm_cursor where
  rows : List (List typed_value)
  pos : Nat
  valid : Bool
  deriving Repr

structure vm_state where
  registers : Nat → typed_value
  cursors : Nat → Option vm_cursor
  emitted : List (List typed_value)

def vm_init : vm_state :=
  { registers := fun _ => typed_value.VInt 0,
    cursors := fun _ => none, emitted := [] }

def row_key (r : List typed_value) : typed_value :=
  r.getD 0 (typed_value.VInt 0)

def tv_lt : typed_value → typed_value → Bool
  | typed_value.VInt a, typed_value.VInt b => a < b
  | typed_value.VStr a, typed_value.VStr b => a < b
  | _, _ => false

def tv_le (a b : typed_value) : Bool := tv_lt a b || a = b

def tv_truthy : typed_value → Bool
  | typed_value.VInt n => n ≠ 0
  | _ => false

def tv_cmp (op : COMPARISON_OP) (a b : typed_value) : Bool :=
  match op with
  | COMPARISON_OP.EQ => a = b
  | COMPARISON_OP.NE => !(a = b : Bool)
  | COMPARISON_OP.LT => tv_lt a b
  | COMPARISON_OP.LE => tv_le a b
  | COMPARISON_OP.GT => tv_lt b a
  | COMPARISON_OP.GE => tv_le b a

/-- Spec section 4.3 seek semantics over the sorted row list: EQ lands on
the match; GE/GT land on the first row of the forward range; LE/LT land
on the last row of the backward range.  Returns the cursor and the
found/„any row exists" flag. -/
def cursor_seek (c : vm_cursor) (op : COMPARISON_OP) (k : typed_value) :
    vm_cursor × Bool :=
  let found : Option Nat :=
    match op with
    | COMPARISON_OP.EQ => c.rows.findIdx? (fun r => row_key r = k)
    | COMPARISON_OP.GE => c.rows.findIdx? (fun r => tv_le k (row_key r))
    | COMPARISON_OP.GT => c.rows.findIdx? (fun r => tv_lt k (row_key r))
    | COMPARISON_OP.LE =>
        (c.rows.reverse.findIdx? (fun r => tv_le (row_key r) k)).map
          (fun j => c.rows.length - 1 - j)
    | COMPARISON_OP.LT =>
        (c.rows.reverse.findIdx? (fun r => tv_lt (row_key r) k)).map
          (fun j => c.rows.length - 1 - j)
    | COMPARISON_OP.NE => none
  match found with
  | some i => ({ c with pos := i, valid := true }, true)
  | none => ({ c with valid := false }, false)

def cursor_rewind (c : vm_cursor) (to_end : Bool) : vm_cursor × Bool :=
  if c.rows.isEmpty then ({ c with valid := false }, false)
  else if to_end then
    ({ c with pos := c.rows.length - 1, valid := true }, true)
  else ({ c with pos := 0, valid := true }, true)

def cursor_step (c : vm_cursor) (forward : Bool) : vm_cursor × Bool :=
  if !c.valid then ({ c with valid := false }, false)
  else if forward then
    if c.pos + 1 < c.rows.length then
      ({ c with pos := c.pos + 1 }, true)
    else ({ c with valid := false }, false)
  else
    if 0 < c.pos then ({ c with pos := c.pos - 1 }, true)
    else ({ c with valid := false }, false)

def set_reg (σ : vm_state) (i : Nat) (v : typed_value) : vm_state :=
  { σ with registers := fun j => if j = i then v else σ.registers j }

def set_cursor (σ : vm_state) (i : Nat) (c : Option vm_cursor) :
    vm_state :=
  { σ with cursors := fun j => if j = i then c else σ.cursors j }

inductive StepOutcome
  | next (pc : Nat) (σ : vm_state)
  | halted (code : Nat) (σ : vm_state)
  | error (σ : vm_state)

def bool_reg (b : Bool) : typed_value :=
  typed_value.VInt (if b then 1 else 0)

def vm_exec (env : String → List (List typed_value))
    (i : vm_instruction) (pc : Nat) (σ : vm_state) : StepOutcome :=
  match i with
  | vm_instruction.LOAD dest _ v =>
      StepOutcome.next (pc + 1) (set_reg σ dest v)
  | vm_instruction.MOVE dest src =>
      StepOutcome.next (pc + 1) (set_reg σ dest (σ.registers src))
  | vm_instruction.ARITHMETIC dest l r op =>
      match σ.registers l, σ.registers r with
      | typed_value.VInt a, typed_value.VInt b =>
          let v := match op with
            | ARITH_OP.ARITH_ADD => a + b
            | ARITH_OP.ARITH_SUB => a - b
            | ARITH_OP.ARITH_MUL => a * b
            | ARITH_OP.ARITH_DIV => a / b
          StepOutcome.next (pc + 1) (set_reg σ dest (typed_value.VInt v))
      | _, _ => StepOutcome.error σ
  | vm_instruction.TEST dest l r op =>
      StepOutcome.next (pc + 1)
        (set_reg σ dest (bool_reg (tv_cmp op (σ.registers l)
          (σ.registers r))))
  | vm_instruction.LOGIC dest l r op =>
      let a := tv_truthy (σ.registers l)
      let b := tv_truthy (σ.registers r)
      let v := match op with
        | LOGIC_OP.LOGIC_AND => a && b
        | LOGIC_OP.LOGIC_OR => a || b
      StepOutcome.next (pc + 1) (set_reg σ dest (bool_reg v))
  | vm_instruction.GOTO (some t) => StepOutcome.next t σ
  | vm_instruction.GOTO none => StepOutcome.error σ
  | vm_instruction.JUMPIF reg (some t) flag =>
      if tv_truthy (σ.registers reg) = flag then StepOutcome.next t σ
      else StepOutcome.next (pc + 1) σ
  | vm_instruction.JUMPIF _ none _ => StepOutcome.error σ
  | vm_instruction.OPEN cursor ctx =>
      let rows := match ctx with
        | cursor_context.BPLUS name => env name
        | cursor_context.RED_BLACK _ => []
      StepOutcome.next (pc + 1)
        (set_cursor σ cursor (some { rows := rows, pos := 0, valid := false }))
  | vm_instruction.CLOSE cursor =>
      StepOutcome.next (pc + 1) (set_cursor σ cursor none)
  | vm_instruction.REWIND cursor result to_end =>
      match σ.cursors cursor with
      | some c =>
          let (c2, ok) := cursor_rewind c to_end
          StepOutcome.next (pc + 1)
            (set_reg (set_cursor σ cursor (some c2)) result (bool_reg ok))
      | none => StepOutcome.error σ
  | vm_instruction.STEP cursor result forward =>
      match σ.cursors cursor with
      | some c =>
          let (c2, ok) := cursor_step c forward
          StepOutcome.next (pc + 1)
            (set_reg (set_cursor σ cursor (some c2)) result (bool_reg ok))
      | none => StepOutcome.error σ
  | vm_instruction.SEEK cursor key result op =>
      match σ.cursors cursor with
      | some c =>
          let (c2, ok) := cursor_seek c op (σ.registers key)
          StepOutcome.next (pc + 1)
            (set_reg (set_cursor σ cursor (some c2)) result (bool_reg ok))
      | none => StepOutcome.error σ
  | vm_instruction.COLUMN cursor col dest =>
      match σ.cursors cursor with
      | some c =>
          if c.valid then
            let row := c.rows.getD c.pos []
            StepOutcome.next (pc + 1)
              (set_reg σ dest (row.getD col (typed_value.VInt 0)))
          else StepOutcome.error σ
      | none => StepOutcome.error σ
  | vm_instruction.RESULT start count =>
      StepOutcome.next (pc + 1)
        { σ with emitted := σ.emitted ++
            [(List.range count).map (fun j => σ.registers (start + j))] }
  | vm_instruction.HALT code => StepOutcome.halted code σ
  | _ => StepOutcome.error σ

def vm_run (env : String → List (List typed_value))
    (prog : List vm_instruction) :
    Nat → Nat → vm_state → vm_state × Option Nat
  | 0, _, σ => (σ, none)
  | fuel + 1, pc, σ =>
      if h : pc < prog.length then
        match vm_exec env (prog.get ⟨pc, h⟩) pc σ with
        | StepOutcome.next pc2 σ2 => vm_run env prog fuel pc2 σ2
        | StepOutcome.halted code σ2 => (σ2, some code)
        | StepOutcome.error σ2 => (σ2, none)
      else (σ, none)

def is_test_instr : vm_instruction → Bool
  | vm_instruction.TEST _ _ _ _ => true
  | _ => false

/-- The failing statement for C1:
`SELECT * FROM t WHERE k = 1 AND v = 'b'` over `t(k INT, v TEXT)`. -/
def stmtC1 : select_stmt_t :=
  { table_name := "t",
    where_clause := some (EXPR_BINARY_OP OP_AND
      (EXPR_BINARY_OP OP_EQ (EXPR_COLUMN 0) (EXPR_LIT_U32 TYPE_U32 1))
      (EXPR_BINARY_OP OP_EQ (EXPR_COLUMN 1)
        (EXPR_LIT_CHAR TYPE_CHAR32 "b"))),
    column_indices := [0, 1],
    has_order_by := false, order_by_index := 0, order_desc := false }

/-- Table `t` holding the single row `(1, 'a')`. -/
def envC1 : String → List (List typed_value) :=
  fun n => if n = "t" then [[typed_value.VInt 1, typed_value.VStr "a"]]
    else []

/-- C1: the DIRECT_LOOKUP path drops the remaining WHERE conditions.  For
`SELECT * FROM t WHERE k = 1 AND v = 'b'` the emitted program contains no
TEST instruction at all — the residual predicate `v = 'b'` is never
evaluated — and executing it against a table whose only row is `(1, 'a')`
emits that row even though `v = 'b'` is false on it.  This contradicts
the source's own comment ("seek directly to it, THEN, test the other
condition(s) and exit", compile.cpp lines 183-186) and the spec's
DIRECT_LOOKUP rule. -/
theorem direct_lookup_drops_residual_where :
    (compile_select stmtC1).filter is_test_instr = [] ∧
      (vm_run envC1 (compile_select stmtC1) 20 0 vm_init).2 = some 0 ∧
      (vm_run envC1 (compile_select stmtC1) 20 0 vm_init).1.emitted =
        [[typed_value.VInt 1, typed_value.VStr "a"]] := by
  refine ⟨rfl, rfl, rfl⟩

/-! ## Closed form of expression compilation, used for the seek-scan
claims -/

def is_seek_instr : vm_instruction → Bool
  | vm_instruction.SEEK _ _ _ _ => true
  | _ => false

def is_step_instr : vm_instruction → Bool
  | vm_instruction.STEP _ _ _ => true
  | _ => false

/-- The instruction `compile_expr` emits for a binary operator, with
destination `d` over operand registers `r1`, `r2`. -/
def binary_op_instr (op : EXPR_OP) (d r1 r2 : Nat) : vm_instruction :=
  match op with
  | OP_EQ => vm_instruction.TEST d r1 r2 COMPARISON_OP.EQ
  | OP_NE => vm_instruction.TEST d r1 r2 COMPARISON_OP.NE
  | OP_LT => vm_instruction.TEST d r1 r2 COMPARISON_OP.LT
  | OP_LE => vm_instruction.TEST d r1 r2 COMPARISON_OP.LE
  | OP_GT => vm_instruction.TEST d r1 r2 COMPARISON_OP.GT
  | OP_GE => vm_instruction.TEST d r1 r2 COMPARISON_OP.GE
  | OP_AND => vm_instruction.LOGIC d r1 r2 LOGIC_OP.LOGIC_AND
  | OP_OR => vm_instruction.LOGIC d r1 r2 LOGIC_OP.LOGIC_OR

/-- Closed form of `compile_expr`: from first free register `base`,
the emitted instruction list, the result register, and the next free
register afterwards. -/
def compile_expr_insts (cid : Nat) : expr_node → Nat →
    List vm_instruction × Nat × Nat
  | EXPR_COLUMN i, base =>
      ([vm_instruction.COLUMN cid i base], base, base + 1)
  | EXPR_LIT_U32 rt v, base =>
      ([vm_instruction.LOAD base rt (typed_value.VInt v)], base, base + 1)
  | EXPR_LIT_CHAR rt s, base =>
      ([vm_instruction.LOAD base rt (typed_value.VStr s)], base, base + 1)
  | EXPR_BINARY_OP op l r, base =>
      let (d1, r1, n1) := compile_expr_insts cid l base
      let (d2, r2, n2) := compile_expr_insts cid r n1
      (d1 ++ d2 ++ [binary_op_instr op n2 r1 r2], n2, n2 + 1)
  | EXPR_NOT e, base =>
      let (d1, r1, n1) := compile_expr_insts cid e base
      (d1 ++ [vm_instruction.LOAD n1 TYPE_U32 (typed_value.VInt 1),
        vm_instruction.ARITHMETIC (n1 + 1) n1 r1 ARITH_OP.ARITH_SUB],
        n1 + 1, n1 + 2)

lemma compile_expr_eq (e : expr_node) (cid : Nat) (p : program_builder) :
    compile_expr e cid p =
      ((compile_expr_insts cid e p.next_free).2.1,
        { p with
          instructions :=
            p.instructions ++ (compile_expr_insts cid e p.next_free).1,
          next_free := (compile_expr_insts cid e p.next_free).2.2 }) := by
  induction e generalizing p with
  | EXPR_COLUMN i =>
      simp [compile_expr, compile_expr_insts, pb_get_column, pb_allocate,
        pb_emit]
  | EXPR_LIT_U32 rt v =>
      simp [compile_expr, compile_literal, compile_expr_insts, pb_load,
        pb_allocate, pb_emit]
  | EXPR_LIT_CHAR rt s =>
      simp [compile_expr, compile_literal, compile_expr_insts,
        pb_load_string, pb_allocate, pb_emit]
  | EXPR_BINARY_OP op l r ihl ihr =>
      cases op <;>
        simp [compile_expr, compile_expr_insts, binary_op_instr, ihl, ihr,
          pb_test, pb_logic, pb_allocate, pb_emit, List.append_assoc]
  | EXPR_NOT e1 ih =>
      simp [compile_expr, compile_expr_insts, ih, pb_load, pb_arith,
        pb_allocate, pb_emit, List.append_assoc]

lemma compile_expr_insts_no_seek_step (cid : Nat) (e : expr_node)
    (base : Nat) :
    (compile_expr_insts cid e base).1.filter is_seek_instr = [] ∧
      (compile_expr_insts cid e base).1.filter is_step_instr = [] := by
  induction e generalizing base with
  | EXPR_COLUMN i => simp [compile_expr_insts, is_seek_instr, is_step_instr]
  | EXPR_LIT_U32 rt v =>
      simp [compile_expr_insts, is_seek_instr, is_step_instr]
  | EXPR_LIT_CHAR rt s =>
      simp [compile_expr_insts, is_seek_instr, is_step_instr]
  | EXPR_BINARY_OP op l r ihl ihr =>
      cases op <;>
        simp [compile_expr_insts, binary_op_instr, List.filter_append,
          (ihl base).1, (ihl base).2, is_seek_instr, is_step_instr,
          ihl, ihr]
  | EXPR_NOT e1 ih =>
      simp [compile_expr_insts, List.filter_append, ih,
        is_seek_instr, is_step_instr]

/-- The COLUMN instructions the scan body emits for the output row. -/
def column_block (cursor : Nat) (cols : List Nat) (base count : Nat) :
    List vm_instruction :=
  (List.range count).map
    (fun i => vm_instruction.COLUMN cursor (cols[i]?.getD 0) (base + i))

/-- The COLUMN-emitting loop of the scan body in closed form. -/
lemma get_column_foldl_eq (cursor : Nat) (cols : List Nat) (base : Nat)
    (count : Nat) (q : program_builder) :
    (List.range count).foldl
        (fun q i =>
          (pb_get_column cursor (cols[i]?.getD 0) (some (base + i)) q).2) q =
      { q with instructions :=
          q.instructions ++ column_block cursor cols base count } := by
  induction count with
  | zero => simp [column_block]
  | succ n ih =>
      rw [List.range_succ, List.foldl_append, ih]
      unfold column_block
      rw [List.range_succ, List.map_append]
      simp [pb_get_column, pb_emit]

lemma filter_column_block (P : vm_instruction → Bool)
    (hP : ∀ c col d, P (vm_instruction.COLUMN c col d) = false)
    (cursor : Nat) (cols : List Nat) (base : Nat) (count : Nat) :
    (column_block cursor cols base count).filter P = [] := by
  rw [List.filter_eq_nil_iff]
  intro a ha
  rw [column_block, List.mem_map] at ha
  obtain ⟨i, _, rfl⟩ := ha
  simp [hP]

/-- `patch_instr` preserves the SEEK/STEP filters: it rewrites only
GOTO/JUMPIF and leaves every other opcode untouched. -/
lemma patch_instr_preserves (P : vm_instruction → Bool)
    (hP : ∀ i pc, P (patch_instr i pc) = P i ∧
      (P i = true → patch_instr i pc = i)) :
    ∀ (l : List vm_instruction) (idx pc : Nat),
      (l.set idx
        (patch_instr (l.getD idx (vm_instruction.HALT 0)) pc)).filter P =
      l.filter P := by
  intro l
  induction l with
  | nil => intro idx pc; rfl
  | cons x t ih =>
      intro idx pc
      cases idx with
      | zero =>
          simp only [List.getD_cons_zero, List.set_cons_zero]
          by_cases hx : P x = true
          · rw [(hP x pc).2 hx]
          · have hpx : P (patch_instr x pc) = false := by
              rw [(hP x pc).1]
              simpa using hx
            have hx2 : P x = false := by simpa using hx
            simp only [List.filter_cons, hpx, hx2, Bool.false_eq_true,
              if_false]
      | succ n =>
          simp only [List.getD_cons_succ, List.set_cons_succ,
            List.filter_cons]
          rw [ih n pc]

lemma foldl_apply_patch_filter (P : vm_instruction → Bool)
    (hP : ∀ i pc, P (patch_instr i pc) = P i ∧
      (P i = true → patch_instr i pc = i))
    (labels : List (Nat × Nat)) :
    ∀ (patches : List (Nat × Nat)) (ins : List vm_instruction),
      (patches.foldl (apply_patch labels) ins).filter P =
        ins.filter P := by
  intro patches
  induction patches with
  | nil => intro ins; rfl
  | cons pa rest ih =>
      intro ins
      rw [List.foldl_cons, ih]
      unfold apply_patch
      rcases h : lookup_label labels pa.2 with _ | pc
      · rfl
      · exact patch_instr_preserves P hP ins pa.1 pc

lemma resolve_labels_filter (P : vm_instruction → Bool)
    (hP : ∀ i pc, P (patch_instr i pc) = P i ∧
      (P i = true → patch_instr i pc = i))
    (p : program_builder) :
    (pb_resolve_labels p).instructions.filter P =
      p.instructions.filter P := by
  show (p.patches_needed.foldl (apply_patch p.labels)
    p.instructions).filter P = p.instructions.filter P
  exact foldl_apply_patch_filter P hP p.labels p.patches_needed
    p.instructions

lemma patch_preserves_seek :
    ∀ (i : vm_instruction) (pc : Nat),
      is_seek_instr (patch_instr i pc) = is_seek_instr i ∧
        (is_seek_instr i = true → patch_instr i pc = i) := by
  intro i pc
  cases i <;> simp [patch_instr, is_seek_instr]

lemma patch_preserves_step :
    ∀ (i : vm_instruction) (pc : Nat),
      is_step_instr (patch_instr i pc) = is_step_instr i ∧
        (is_step_instr i = true → patch_instr i pc = i) := by
  intro i pc
  cases i <;> simp [patch_instr, is_step_instr]

/-! ## The seek-scan claims (compile.cpp lines 212-246, 328-377) -/

def op_is_ineq : EXPR_OP → Bool
  | OP_LT | OP_LE | OP_GT | OP_GE => true
  | _ => false

/-- The comparison operator the strategy carries for each SQL inequality
(compile.cpp lines 217-235). -/
def opToCmp : EXPR_OP → COMPARISON_OP
  | OP_LT => COMPARISON_OP.LT
  | OP_LE => COMPARISON_OP.LE
  | OP_GT => COMPARISON_OP.GT
  | OP_GE => COMPARISON_OP.GE
  | _ => COMPARISON_OP.EQ

/-- Scan direction per operator: forward for `>`/`>=`, backward for
`<`/`<=` (compile.cpp lines 217-235). -/
def op_scans_forward : EXPR_OP → Bool
  | OP_GT | OP_GE => true
  | _ => false

lemma analyze_pk_ineq (opE : EXPR_OP) (lit : expr_node)
    (hop : op_is_ineq opE = true) (hlit : is_literal lit = true) :
    analyze_expr (EXPR_BINARY_OP opE (EXPR_COLUMN 0) lit) =
      ({ type := STRATEGY_SEEK_SCAN, op := opToCmp opE,
         key_expr := some lit, scan_forward := op_scans_forward opE },
        EXPR_LIT_U32 TYPE_U32 1) := by
  cases opE <;>
    simp_all [analyze_expr, is_pk_column, op_is_ineq, opToCmp,
      op_scans_forward]

lemma analyze_and_pk_ineq (opE : EXPR_OP) (lit rest : expr_node)
    (hop : op_is_ineq opE = true) (hlit : is_literal lit = true) :
    analyze_expr (EXPR_BINARY_OP OP_AND
        (EXPR_BINARY_OP opE (EXPR_COLUMN 0) lit) rest) =
      ({ type := STRATEGY_SEEK_SCAN, op := opToCmp opE,
         key_expr := some lit, scan_forward := op_scans_forward opE },
        rest) := by
  cases opE <;>
    simp_all [analyze_expr, is_pk_column, is_literal, op_is_ineq, opToCmp,
      op_scans_forward]

lemma compile_literal_eq (lit : expr_node) (hlit : is_literal lit = true)
    (p : program_builder) :
    compile_literal lit p =
      ((compile_expr_insts 0 lit p.next_free).2.1,
        { p with
          instructions :=
            p.instructions ++ (compile_expr_insts 0 lit p.next_free).1,
          next_free := (compile_expr_insts 0 lit p.next_free).2.2 }) := by
  cases lit <;> simp_all [is_literal] <;>
    simp [compile_literal, compile_expr_insts, pb_load, pb_load_string,
      pb_allocate, pb_emit]

lemma literal_insts_reg (lit : expr_node) (hlit : is_literal lit = true) :
    ∀ base, (compile_expr_insts 0 lit base).2.1 = base ∧
      (compile_expr_insts 0 lit base).2.2 = base + 1 := by
  cases lit <;> simp_all [is_literal] <;> simp [compile_expr_insts]

lemma compile_expr_insts_filter_seek (cid : Nat) (e : expr_node)
    (base : Nat) :
    (compile_expr_insts cid e base).1.filter is_seek_instr = [] :=
  (compile_expr_insts_no_seek_step cid e base).1

lemma compile_expr_insts_filter_step (cid : Nat) (e : expr_node)
    (base : Nat) :
    (compile_expr_insts cid e base).1.filter is_step_instr = [] :=
  (compile_expr_insts_no_seek_step cid e base).2

lemma column_block_filter_seek (cursor : Nat) (cols : List Nat)
    (base count : Nat) :
    (column_block cursor cols base count).filter is_seek_instr = [] :=
  filter_column_block is_seek_instr (fun _ _ _ => rfl) cursor cols base
    count

lemma column_block_filter_step (cursor : Nat) (cols : List Nat)
    (base count : Nat) :
    (column_block cursor cols base count).filter is_step_instr = [] :=
  filter_column_block is_step_instr (fun _ _ _ => rfl) cursor cols base
    count

/-- The compiled scan program for a SEEK_SCAN strategy contains exactly
one SEEK — with the strategy's operator, on the table cursor, keyed by
the literal's register — and exactly one STEP, in the strategy's
direction. -/
lemma compile_select_seek_scan_filters (stmt : select_stmt_t)
    (sop : COMPARISON_OP) (sfwd : Bool) (lit residual : expr_node)
    (hob : stmt.has_order_by = false)
    (hlit : is_literal lit = true)
    (hA : analyze_where_clause stmt.where_clause =
      ({ type := STRATEGY_SEEK_SCAN, op := sop, key_expr := some lit,
         scan_forward := sfwd }, some residual)) :
    (compile_select stmt).filter is_seek_instr =
        [vm_instruction.SEEK 0 0 1 sop] ∧
      (compile_select stmt).filter is_step_instr =
        [vm_instruction.STEP 0 1 sfwd] := by
  cases sfwd <;>
    constructor <;>
      simp [compile_select, hA, hob, compile_literal_eq lit hlit,
        literal_insts_reg lit hlit, compile_expr_eq,
        resolve_labels_filter is_seek_instr patch_preserves_seek,
        resolve_labels_filter is_step_instr patch_preserves_step,
        pb_open_cursor, pb_emit, pb_seek, pb_allocate, pb_begin_while,
        pb_unique_label, pb_define_label, pb_jumpif, pb_push_scope,
        pb_begin_if, pb_allocate_range, get_column_foldl_eq,
        pb_result, pb_end_if, pb_restore, pb_step, pb_pop_scope,
        pb_end_while, pb_jump_to, pb_close_cursor, pb_halt,
        List.filter_append, compile_expr_insts_filter_seek,
        compile_expr_insts_filter_step, column_block_filter_seek,
        column_block_filter_step, is_seek_instr, is_step_instr]

/-- C3: for a compiled SELECT (without ORDER BY) whose WHERE clause is a
primary-key inequality `pk op literal` with `op` in `<, <=, >, >=` —
standalone or AND-combined with further conditions — the analysis yields
a SEEK_SCAN strategy carrying the same operator, removes that predicate
from the tree (the standalone predicate becomes the literal `true`, the
AND node collapses to the other conjunct), and the emitted program
contains exactly one SEEK, with that operator, and exactly one scan STEP,
backward for `<`/`<=` and forward for `>`/`>=`. -/
theorem seek_scan_operator_and_direction
    (opE : EXPR_OP) (lit rest : expr_node) (stmt : select_stmt_t)
    (hop : op_is_ineq opE = true) (hlit : is_literal lit = true)
    (hob : stmt.has_order_by = false)
    (hw : stmt.where_clause =
        some (EXPR_BINARY_OP opE (EXPR_COLUMN 0) lit) ∨
      stmt.where_clause =
        some (EXPR_BINARY_OP OP_AND
          (EXPR_BINARY_OP opE (EXPR_COLUMN 0) lit) rest)) :
    (analyze_where_clause stmt.where_clause).1.type =
        STRATEGY_SEEK_SCAN ∧
      (analyze_where_clause stmt.where_clause).1.op = opToCmp opE ∧
      (analyze_where_clause stmt.where_clause).1.scan_forward =
        op_scans_forward opE ∧
      (stmt.where_clause =
          some (EXPR_BINARY_OP opE (EXPR_COLUMN 0) lit) →
        (analyze_where_clause stmt.where_clause).2 =
          some (EXPR_LIT_U32 TYPE_U32 1)) ∧
      (stmt.where_clause =
          some (EXPR_BINARY_OP OP_AND
            (EXPR_BINARY_OP opE (EXPR_COLUMN 0) lit) rest) →
        (analyze_where_clause stmt.where_clause).2 = some rest) ∧
      (compile_select stmt).filter is_seek_instr =
        [vm_instruction.SEEK 0 0 1 (opToCmp opE)] ∧
      (compile_select stmt).filter is_step_instr =
        [vm_instruction.STEP 0 1 (op_scans_forward opE)] := by
  rcases hw with hw | hw
  · have hA : analyze_where_clause stmt.where_clause =
        ({ type := STRATEGY_SEEK_SCAN, op := opToCmp opE,
           key_expr := some lit, scan_forward := op_scans_forward opE },
          some (EXPR_LIT_U32 TYPE_U32 1)) := by
      rw [hw]
      show (fun r => (r.1, some r.2))
        (analyze_expr (EXPR_BINARY_OP opE (EXPR_COLUMN 0) lit)) = _
      rw [analyze_pk_ineq opE lit hop hlit]
    obtain ⟨hs, ht⟩ := compile_select_seek_scan_filters stmt (opToCmp opE)
      (op_scans_forward opE) lit (EXPR_LIT_U32 TYPE_U32 1) hob hlit hA
    refine ⟨by rw [hA], by rw [hA], by rw [hA], fun _ => by rw [hA],
      ?_, hs, ht⟩
    intro hcontra
    rw [hw] at hcontra
    simp only [Option.some.injEq,
      expr_node.EXPR_BINARY_OP.injEq] at hcontra
    obtain ⟨heq, -, -⟩ := hcontra
    subst heq
    simp [op_is_ineq] at hop
  · have hA : analyze_where_clause stmt.where_clause =
        ({ type := STRATEGY_SEEK_SCAN, op := opToCmp opE,
           key_expr := some lit, scan_forward := op_scans_forward opE },
          some rest) := by
      rw [hw]
      show (fun r => (r.1, some r.2))
        (analyze_expr (EXPR_BINARY_OP OP_AND
          (EXPR_BINARY_OP opE (EXPR_COLUMN 0) lit) rest)) = _
      rw [analyze_and_pk_ineq opE lit rest hop hlit]
    obtain ⟨hs, ht⟩ := compile_select_seek_scan_filters stmt (opToCmp opE)
      (op_scans_forward opE) lit rest hob hlit hA
    refine ⟨by rw [hA], by rw [hA], by rw [hA], ?_, fun _ => by rw [hA],
      hs, ht⟩
    intro hcontra
    rw [hw] at hcontra
    simp only [Option.some.injEq,
      expr_node.EXPR_BINARY_OP.injEq] at hcontra
    obtain ⟨heq, -, -⟩ := hcontra
    subst heq
    simp [op_is_ineq] at hop

theorem seek_scan_operator_and_direction_witness :
    (analyze_where_clause (some (EXPR_BINARY_OP OP_LT (EXPR_COLUMN 0)
        (EXPR_LIT_U32 TYPE_U32 5)))).1.type = STRATEGY_SEEK_SCAN ∧
      (analyze_where_clause (some (EXPR_BINARY_OP OP_LT (EXPR_COLUMN 0)
        (EXPR_LIT_U32 TYPE_U32 5)))).1.op = opToCmp OP_LT ∧
      (analyze_where_clause (some (EXPR_BINARY_OP OP_LT (EXPR_COLUMN 0)
        (EXPR_LIT_U32 TYPE_U32 5)))).1.scan_forward =
        op_scans_forward OP_LT ∧
      ((some (EXPR_BINARY_OP OP_LT (EXPR_COLUMN 0)
          (EXPR_LIT_U32 TYPE_U32 5)) : Option expr_node) =
          some (EXPR_BINARY_OP OP_LT (EXPR_COLUMN 0)
            (EXPR_LIT_U32 TYPE_U32 5)) →
        (analyze_where_clause (some (EXPR_BINARY_OP OP_LT (EXPR_COLUMN 0)
          (EXPR_LIT_U32 TYPE_U32 5)))).2 =
          some (EXPR_LIT_U32 TYPE_U32 1)) ∧
      ((some (EXPR_BINARY_OP OP_LT (EXPR_COLUMN 0)
          (EXPR_LIT_U32 TYPE_U32 5)) : Option expr_node) =
          some (EXPR_BINARY_OP OP_AND
            (EXPR_BINARY_OP OP_LT (EXPR_COLUMN 0)
              (EXPR_LIT_U32 TYPE_U32 5))
            (EXPR_COLUMN 1)) →
        (analyze_where_clause (some (EXPR_BINARY_OP OP_LT (EXPR_COLUMN 0)
          (EXPR_LIT_U32 TYPE_U32 5)))).2 = some (EXPR_COLUMN 1)) ∧
      (compile_select
          { table_name := "t",
            where_clause := some (EXPR_BINARY_OP OP_LT (EXPR_COLUMN 0)
              (EXPR_LIT_U32 TYPE_U32 5)),
            column_indices := [0, 1], has_order_by := false,
            order_by_index := 0,
            order_desc := false }).filter is_seek_instr =
        [vm_instruction.SEEK 0 0 1 (opToCmp OP_LT)] ∧
      (compile_select
          { table_name := "t",
            where_clause := some (EXPR_BINARY_OP OP_LT (EXPR_COLUMN 0)
              (EXPR_LIT_U32 TYPE_U32 5)),
            column_indices := [0, 1], has_order_by := false,
            order_by_index := 0,
            order_desc := false }).filter is_step_instr =
        [vm_instruction.STEP 0 1 (op_scans_forward OP_LT)] :=
  seek_scan_operator_and_direction OP_LT (EXPR_LIT_U32 TYPE_U32 5)
    (EXPR_COLUMN 1)
    { table_name := "t",
      where_clause := some (EXPR_BINARY_OP OP_LT (EXPR_COLUMN 0)
        (EXPR_LIT_U32 TYPE_U32 5)),
      column_indices := [0, 1], has_order_by := false,
      order_by_index := 0, order_desc := false }
    rfl rfl rfl (Or.inl rfl)

/-! ## B+Tree occupancy (btree.hpp; spec sections 4.3 and 8)

Modelled from the spec: btree.cpp is not in the source tree, only the
handle (btree.hpp lines 13-31) and the cursor interface (lines 51-66) are.
The insert algorithm follows spec section 4.3 "Insert algorithm" (leaf
insertion, bottom-up splits, root growth; duplicate keys are rejected) and
the delete algorithm follows "Delete algorithm" (borrow from left then
right sibling, else merge, root collapse).  Nodes are indexed by height so
that all leaves sit at depth 0, as in the real tree.  Split indices keep
`floor((max+1)/2)` keys in the left leaf and move key `floor(max/2)` up
from an overflowing internal node; both halves then respect the
`min = max / 2` bounds of btree.hpp. -/

inductive BTNode where
  | leaf (entries : List (Nat × Nat))
  | internal (keys : List Nat) (children : List BTNode)

def node_count : BTNode → Nat
  | BTNode.leaf es => es.length
  | BTNode.internal ks _ => ks.length

/-- The minimum occupancy of a non-root node at height `h`:
`leaf_min_keys = leaf_max / 2` for leaves (height 0), `internal_min_keys
= internal_max / 2` for internal nodes (btree.hpp lines 20-21, "half of
max"). -/
def min_count (L I : Nat) : Nat → Nat
  | 0 => L / 2
  | _ + 1 => I / 2

/-- Occupancy well-formedness below a node of height `h` (leaves at
height 0, so all leaves sit at the same depth, as in the real tree):
every node respects its `max`, an internal node with `N` keys has `N + 1`
children, and every strict descendant also respects its `min`. -/
def subWF (L I : Nat) : Nat → BTNode → Prop
  | 0, BTNode.leaf es => es.length ≤ L
  | 0, BTNode.internal _ _ => False
  | _ + 1, BTNode.leaf _ => False
  | h + 1, BTNode.internal ks cs =>
      ks.length ≤ I ∧ cs.length = ks.length + 1 ∧
        ∀ c ∈ cs, subWF L I h c ∧ min_count L I h ≤ node_count c

/-- Well-formedness at the root: the root has no minimum, but an internal
root carries at least one key (it is only ever created from a split and
collapses once it loses its last key), so the root is empty only when the
whole tree is the empty leaf. -/
def wf_root (L I : Nat) (h : Nat) (t : BTNode) : Prop :=
  subWF L I h t ∧ (0 < h → 1 ≤ node_count t)

/-- Position of the child to descend into: keys `≤ k` lie to the left, a
tie descends right (spec: keys are strict upper bounds on left
subtrees). -/
def findChild (ks : List Nat) (k : Nat) : Nat :=
  (ks.filter (fun x => x ≤ k)).length

/-- Sorted insertion into a leaf's entry list. -/
def insertEntry (k v : Nat) : List (Nat × Nat) → List (Nat × Nat)
  | [] => [(k, v)]
  | e :: rest =>
      if k < e.1 then (k, v) :: e :: rest else e :: insertEntry k v rest

/-- Remove the (single) entry with key `k`, if present. -/
def removeEntry (k : Nat) : List (Nat × Nat) → List (Nat × Nat)
  | [] => []
  | e :: rest => if e.1 = k then rest else e :: removeEntry k rest

/-- Insert `a` at position `i` (append when `i` exceeds the length). -/
def insertAt {α : Type} : Nat → α → List α → List α
  | 0, a, l => a :: l
  | _ + 1, a, [] => [a]
  | n + 1, a, x :: t => x :: insertAt n a t

inductive InsRes where
  | unchanged
  | one (n : BTNode)
  | split (l : BTNode) (sep : Nat) (r : BTNode)

/-- Recursive insertion at height `h`: returns the replacement node, or
the two halves plus separator when the node overflowed and split, or
`unchanged` when the key already exists (insert fails, spec section
4.3).  Trees not matching their height are left alone (unreachable under
`subWF`). -/
def insAux (L I k v : Nat) : Nat → BTNode → InsRes
  | 0, BTNode.leaf es =>
      if es.any (fun e => e.1 = k) then InsRes.unchanged
      else
        let es2 := insertEntry k v es
        if L < es2.length then
          let s := (L + 1) / 2
          InsRes.split (BTNode.leaf (es2.take s)) ((es2.getD s (0, 0)).1)
            (BTNode.leaf (es2.drop s))
        else InsRes.one (BTNode.leaf es2)
  | 0, BTNode.internal _ _ => InsRes.unchanged
  | _ + 1, BTNode.leaf _ => InsRes.unchanged
  | h + 1, BTNode.internal ks cs =>
      let i := findChild ks k
      if hi : i < cs.length then
        match insAux L I k v h (cs.get ⟨i, hi⟩) with
        | InsRes.unchanged => InsRes.unchanged
        | InsRes.one c2 => InsRes.one (BTNode.internal ks (cs.set i c2))
        | InsRes.split cl sep cr =>
            let ks2 := insertAt i sep ks
            let cs2 := insertAt (i + 1) cr (cs.set i cl)
            if I < ks2.length then
              let m := I / 2
              InsRes.split
                (BTNode.internal (ks2.take m) (cs2.take (m + 1)))
                (ks2.getD m 0)
                (BTNode.internal (ks2.drop (m + 1)) (cs2.drop (m + 1)))
            else InsRes.one (BTNode.internal ks2 cs2)
      else InsRes.unchanged

/-- Top-level insert: a root split grows the tree by one level. -/
def bt_insert (L I k v : Nat) (h : Nat) (t : BTNode) : Nat × BTNode :=
  match insAux L I k v h t with
  | InsRes.unchanged => (h, t)
  | InsRes.one n => (h, n)
  | InsRes.split l sep r => (h + 1, BTNode.internal [sep] [l, r])

/-- Concatenate two siblings (pulling the separator down between two
internal nodes). -/
def merge_nodes (h sep : Nat) (a b : BTNode) : BTNode :=
  match h, a, b with
  | 0, BTNode.leaf a, BTNode.leaf b => BTNode.leaf (a ++ b)
  | _ + 1, BTNode.internal ka ca, BTNode.internal kb cb =>
      BTNode.internal (ka ++ sep :: kb) (ca ++ cb)
  | _, a, _ => a

/-- Move one entry from the left sibling into the underfull node; for
internal nodes the separator rotates through the parent.  Returns the new
left sibling, the new separator, and the refilled node. -/
def borrow_left (h sep : Nat) (a b : BTNode) : BTNode × Nat × BTNode :=
  match h, a, b with
  | 0, BTNode.leaf a, BTNode.leaf b =>
      (match a.getLast? with
        | some e => (BTNode.leaf a.dropLast, e.1, BTNode.leaf (e :: b))
        | none => (BTNode.leaf a, sep, BTNode.leaf b))
  | _ + 1, BTNode.internal ka ca, BTNode.internal kb cb =>
      (match ka.getLast?, ca.getLast? with
        | some kl, some cl =>
            (BTNode.internal ka.dropLast ca.dropLast, kl,
              BTNode.internal (sep :: kb) (cl :: cb))
        | _, _ => (BTNode.internal ka ca, sep, BTNode.internal kb cb))
  | _, a, b => (a, sep, b)

/-- Move one entry from the right sibling into the underfull node.
Returns the refilled node, the new separator, and the new right
sibling. -/
def borrow_right (h sep : Nat) (b a : BTNode) : BTNode × Nat × BTNode :=
  match h, b, a with
  | 0, BTNode.leaf b, BTNode.leaf a =>
      (match a with
        | e :: arest =>
            (BTNode.leaf (b ++ [e]), (arest.headD e).1, BTNode.leaf arest)
        | [] => (BTNode.leaf b, sep, BTNode.leaf []))
  | _ + 1, BTNode.internal kb cb, BTNode.internal ka ca =>
      (match ka, ca with
        | k0 :: krest, c0 :: crest =>
            (BTNode.internal (kb ++ [sep]) (cb ++ [c0]), k0,
              BTNode.internal krest crest)
        | _, _ => (BTNode.internal kb cb, sep, BTNode.internal ka ca))
  | _, b, a => (b, sep, a)

/-- Recursive deletion at height `h`: the returned node may be one key
below its minimum (its parent rebalances); children are refilled by
borrowing from the left sibling, then the right sibling, else merged with
a sibling (spec section 4.3 "Delete algorithm"). -/
def delAux (L I k : Nat) : Nat → BTNode → BTNode
  | 0, BTNode.leaf es => BTNode.leaf (removeEntry k es)
  | 0, t => t
  | _ + 1, BTNode.leaf es => BTNode.leaf es
  | h + 1, BTNode.internal ks cs =>
      let i := findChild ks k
      if hi : i < cs.length then
        let c2 := delAux L I k h (cs.get ⟨i, hi⟩)
        if min_count L I h ≤ node_count c2 then
          BTNode.internal ks (cs.set i c2)
        else if 0 < i ∧ min_count L I h <
            node_count (cs.getD (i - 1) (BTNode.leaf [])) then
          let res := borrow_left h (ks.getD (i - 1) 0)
            (cs.getD (i - 1) (BTNode.leaf [])) c2
          BTNode.internal (ks.set (i - 1) res.2.1)
            ((cs.set (i - 1) res.1).set i res.2.2)
        else if i + 1 < cs.length ∧ min_count L I h <
            node_count (cs.getD (i + 1) (BTNode.leaf [])) then
          let res := borrow_right h (ks.getD i 0) c2
            (cs.getD (i + 1) (BTNode.leaf []))
          BTNode.internal (ks.set i res.2.1)
            ((cs.set i res.1).set (i + 1) res.2.2)
        else if 0 < i then
          let merged := merge_nodes h (ks.getD (i - 1) 0)
            (cs.getD (i - 1) (BTNode.leaf [])) c2
          BTNode.internal (ks.eraseIdx (i - 1))
            ((cs.set (i - 1) merged).eraseIdx i)
        else
          let merged := merge_nodes h (ks.getD 0 0) c2
            (cs.getD 1 (BTNode.leaf []))
          BTNode.internal (ks.eraseIdx 0)
            ((cs.set 0 merged).eraseIdx 1)
      else BTNode.internal ks cs

/-- Top-level delete: an internal root left without keys collapses onto
its single remaining child. -/
def bt_delete (L I k : Nat) (h : Nat) (t : BTNode) : Nat × BTNode :=
  match h, delAux L I k h t with
  | 0, t2 => (0, t2)
  | h + 1, BTNode.internal [] cs => (h, cs.getD 0 (BTNode.leaf []))
  | h + 1, t2 => (h + 1, t2)

lemma insertEntry_length (k v : Nat) (es : List (Nat × Nat)) :
    (insertEntry k v es).length = es.length + 1 := by
  induction es with
  | nil => rfl
  | cons e rest ih =>
      by_cases h : k < e.1 <;> simp [insertEntry, h, ih]

lemma removeEntry_length (k : Nat) (es : List (Nat × Nat)) :
    es.length - 1 ≤ (removeEntry k es).length ∧
      (removeEntry k es).length ≤ es.length := by
  induction es with
  | nil => simp [removeEntry]
  | cons e rest ih =>
      by_cases h : e.1 = k <;> simp [removeEntry, h] <;> omega

lemma insertAt_length {α : Type} (i : Nat) (a : α) (l : List α) :
    (insertAt i a l).length = l.length + 1 := by
  induction i generalizing l with
  | zero => simp [insertAt]
  | succ n ih =>
      cases l with
      | nil => simp [insertAt]
      | cons x t => simp [insertAt, ih]

lemma insertAt_mem {α : Type} (i : Nat) (a b : α) (l : List α)
    (h : b ∈ insertAt i a l) : b = a ∨ b ∈ l := by
  induction i generalizing l with
  | zero =>
      simp [insertAt] at h
      tauto
  | succ n ih =>
      cases l with
      | nil => simp [insertAt] at h; tauto
      | cons x t =>
          simp only [insertAt, List.mem_cons] at h
          rcases h with rfl | h
          · right; exact List.mem_cons_self _ _
          · rcases ih t h with h2 | h2
            · left; exact h2
            · right; exact List.mem_cons_of_mem _ h2

lemma getD_mem {α : Type} (l : List α) (i : Nat) (d : α)
    (h : i < l.length) : l.getD i d ∈ l := by
  induction l generalizing i with
  | nil => simp at h
  | cons x t ih =>
      cases i with
      | zero => simp [List.getD]
      | succ n =>
          simp only [List.getD_cons_succ]
          exact List.mem_cons_of_mem _ (ih n (by simpa using h))

lemma findChild_le (ks : List Nat) (k : Nat) :
    findChild ks k ≤ ks.length :=
  List.length_filter_le _ _

lemma getLast?_mem {α : Type} (l : List α) (a : α)
    (h : l.getLast? = some a) : a ∈ l := by
  induction l with
  | nil => simp at h
  | cons x t ih =>
      cases t with
      | nil =>
          simp [List.getLast?] at h
          simp [h]
      | cons y u =>
          rw [List.getLast?_cons_cons] at h
          exact List.mem_cons_of_mem _ (ih h)

lemma getLast?_eq_none_iff_nil {α : Type} (l : List α) :
    l.getLast? = none ↔ l = [] := by
  cases l with
  | nil => simp
  | cons x t => simp [List.getLast?_cons]

def max_count (L I : Nat) : Nat → Nat
  | 0 => L
  | _ + 1 => I

/-- Key weight of the separator in a merge: leaves concatenate, internal
nodes pull the separator down. -/
def sepw : Nat → Nat
  | 0 => 0
  | _ + 1 => 1

lemma merge_nodes_spec (L I : Nat) (h sep : Nat) (a b : BTNode)
    (ha : subWF L I h a) (hb : subWF L I h b)
    (hbound : node_count a + node_count b + sepw h ≤ max_count L I h) :
    subWF L I h (merge_nodes h sep a b) ∧
      node_count (merge_nodes h sep a b) =
        node_count a + node_count b + sepw h := by
  cases h with
  | zero =>
      cases a with
      | internal ka ca => exact absurd ha (by simp [subWF])
      | leaf ea =>
          cases b with
          | internal kb cb => exact absurd hb (by simp [subWF])
          | leaf eb =>
              simp only [merge_nodes, subWF, node_count, sepw,
                max_count] at *
              constructor
              · simp only [List.length_append]; omega
              · simp only [List.length_append]; omega
  | succ h =>
      cases a with
      | leaf ea => exact absurd ha (by simp [subWF])
      | internal ka ca =>
          cases b with
          | leaf eb => exact absurd hb (by simp [subWF])
          | internal kb cb =>
              obtain ⟨haI, halen, hamem⟩ := ha
              obtain ⟨hbI, hblen, hbmem⟩ := hb
              simp only [merge_nodes, subWF, node_count, sepw,
                max_count] at *
              refine ⟨⟨?_, ?_, ?_⟩, ?_⟩
              · simp only [List.length_append, List.length_cons]; omega
              · simp only [List.length_append, List.length_cons]; omega
              · intro c hc
                rcases List.mem_append.mp hc with hc | hc
                · exact hamem c hc
                · exact hbmem c hc
              · simp only [List.length_append, List.length_cons]; omega

lemma borrow_left_spec (L I : Nat) (hL : 2 ≤ L) (hI : 2 ≤ I)
    (h sep : Nat) (a b : BTNode)
    (ha : subWF L I h a) (hb : subWF L I h b)
    (hamin : min_count L I h < node_count a)
    (hbmax : node_count b < min_count L I h) :
    subWF L I h (borrow_left h sep a b).1 ∧
      node_count (borrow_left h sep a b).1 = node_count a - 1 ∧
      subWF L I h (borrow_left h sep a b).2.2 ∧
      node_count (borrow_left h sep a b).2.2 = node_count b + 1 := by
  cases h with
  | zero =>
      cases a with
      | internal ka ca => exact absurd ha (by simp [subWF])
      | leaf ea =>
          cases b with
          | internal kb cb => exact absurd hb (by simp [subWF])
          | leaf eb =>
              simp only [subWF, node_count, min_count] at *
              rcases hg : ea.getLast? with _ | e
              · rw [(getLast?_eq_none_iff_nil ea).mp hg] at hamin
                simp at hamin
              · simp only [borrow_left, hg, subWF, node_count]
                refine ⟨?_, ?_, ?_, ?_⟩
                · rw [List.length_dropLast]; omega
                · rw [List.length_dropLast]
                · simp only [List.length_cons]; omega
                · simp only [List.length_cons]
  | succ h =>
      cases a with
      | leaf ea => exact absurd ha (by simp [subWF])
      | internal ka ca =>
          cases b with
          | leaf eb => exact absurd hb (by simp [subWF])
          | internal kb cb =>
              obtain ⟨haI, halen, hamem⟩ := ha
              obtain ⟨hbI, hblen, hbmem⟩ := hb
              simp only [node_count, min_count] at hamin hbmax
              have hka : ka ≠ [] := by
                intro hnil
                rw [hnil] at hamin
                simp at hamin
              have hca : ca ≠ [] := by
                intro hnil
                rw [hnil] at halen
                simp at halen
              rcases hgk : ka.getLast? with _ | kl
              · exact absurd ((getLast?_eq_none_iff_nil ka).mp hgk) hka
              rcases hgc : ca.getLast? with _ | cl
              · exact absurd ((getLast?_eq_none_iff_nil ca).mp hgc) hca
              simp only [borrow_left, hgk, hgc, subWF, node_count]
              refine ⟨⟨?_, ?_, ?_⟩, ?_, ⟨?_, ?_, ?_⟩, ?_⟩
              · rw [List.length_dropLast]; omega
              · rw [List.length_dropLast, List.length_dropLast]; omega
              · intro c hc
                exact hamem c (List.dropLast_subset ca hc)
              · rw [List.length_dropLast]
              · simp only [List.length_cons]; omega
              · simp only [List.length_cons]; omega
              · intro c hc
                rcases List.mem_cons.mp hc with rfl | hc
                · exact hamem c (getLast?_mem ca c hgc)
                · exact hbmem c hc
              · simp only [List.length_cons]
  
lemma borrow_right_spec (L I : Nat) (hL : 2 ≤ L) (hI : 2 ≤ I)
    (h sep : Nat) (b a : BTNode)
    (hb : subWF L I h b) (ha : subWF L I h a)
    (hbmax : node_count b < min_count L I h)
    (hamin : min_count L I h < node_count a) :
    subWF L I h (borrow_right h sep b a).1 ∧
      node_count (borrow_right h sep b a).1 = node_count b + 1 ∧
      subWF L I h (borrow_right h sep b a).2.2 ∧
      node_count (borrow_right h sep b a).2.2 = node_count a - 1 := by
  cases h with
  | zero =>
      cases a with
      | internal ka ca => exact absurd ha (by simp [subWF])
      | leaf ea =>
          cases b with
          | internal kb cb => exact absurd hb (by simp [subWF])
          | leaf eb =>
              simp only [subWF, node_count, min_count] at *
              cases ea with
              | nil => simp at hamin
              | cons e arest =>
                  simp only [List.length_cons] at ha hamin
                  simp only [borrow_right, subWF, node_count]
                  refine ⟨?_, ?_, ?_, ?_⟩
                  · simp only [List.length_append, List.length_cons,
                      List.length_nil]
                    omega
                  · simp only [List.length_append, List.length_cons,
                      List.length_nil]
                  · omega
                  · simp only [List.length_cons]
                    omega
  | succ h =>
      cases a with
      | leaf ea => exact absurd ha (by simp [subWF])
      | internal ka ca =>
          cases b with
          | leaf eb => exact absurd hb (by simp [subWF])
          | internal kb cb =>
              obtain ⟨haI, halen, hamem⟩ := ha
              obtain ⟨hbI, hblen, hbmem⟩ := hb
              simp only [node_count, min_count] at hamin hbmax
              cases ka with
              | nil => simp at hamin
              | cons k0 krest =>
                  cases ca with
                  | nil => simp at halen
                  | cons c0 crest =>
                      simp only [borrow_right, subWF, node_count]
                      simp only [List.length_cons] at halen hamin haI
                      refine ⟨⟨?_, ?_, ?_⟩, ?_, ⟨?_, ?_, ?_⟩, ?_⟩
                      · simp only [List.length_append, List.length_cons,
                          List.length_nil]
                        omega
                      · simp only [List.length_append, List.length_cons,
                          List.length_nil]
                        omega
                      · intro c hc
                        rcases List.mem_append.mp hc with hc | hc
                        · exact hbmem c hc
                        · simp only [List.mem_singleton] at hc
                          subst hc
                          exact hamem _ (List.mem_cons_self _ _)
                      · simp only [List.length_append, List.length_cons,
                          List.length_nil]
                      · omega
                      · omega
                      · intro c hc
                        exact hamem c (List.mem_cons_of_mem _ hc)
                      · simp only [List.length_cons]
                        omega

lemma insAux_wf (L I k v : Nat) (hL : 2 ≤ L) (hI : 2 ≤ I) :
    ∀ (h : Nat) (t : BTNode), subWF L I h t →
      (∀ n, insAux L I k v h t = InsRes.one n →
        subWF L I h n ∧ node_count t ≤ node_count n ∧
          node_count n ≤ node_count t + 1) ∧
      (∀ l sep r, insAux L I k v h t = InsRes.split l sep r →
        (subWF L I h l ∧ min_count L I h ≤ node_count l) ∧
        (subWF L I h r ∧ min_count L I h ≤ node_count r)) := by
  intro h
  induction h with
  | zero =>
      intro t hwf
      cases t with
      | internal ks cs => exact absurd hwf (by simp [subWF])
      | leaf es =>
          simp only [subWF] at hwf
          cases hdup : es.any (fun e => e.1 = k) with
          | true =>
              constructor
              · intro n hn
                simp [insAux, hdup] at hn
              · intro l sep r hr
                simp [insAux, hdup] at hr
          | false =>
              have hlen := insertEntry_length k v es
              by_cases hov : L < (insertEntry k v es).length
              · have hstep : insAux L I k v 0 (BTNode.leaf es) =
                    InsRes.split
                      (BTNode.leaf ((insertEntry k v es).take ((L + 1) / 2)))
                      (((insertEntry k v es).getD ((L + 1) / 2) (0, 0)).1)
                      (BTNode.leaf ((insertEntry k v es).drop ((L + 1) / 2)))
                    := by
                  simp [insAux, hdup, hov]
                constructor
                · intro n hn
                  rw [hstep] at hn
                  exact absurd hn (by simp)
                · intro l sep r hr
                  rw [hstep, InsRes.split.injEq] at hr
                  obtain ⟨h1, -, h3⟩ := hr
                  subst h1; subst h3
                  simp only [subWF, node_count, min_count,
                    List.length_take, List.length_drop]
                  omega
              · have hstep : insAux L I k v 0 (BTNode.leaf es) =
                    InsRes.one (BTNode.leaf (insertEntry k v es)) := by
                  simp [insAux, hdup, hov]
                constructor
                · intro n hn
                  rw [hstep, InsRes.one.injEq] at hn
                  subst hn
                  simp only [subWF, node_count]
                  omega
                · intro l sep r hr
                  rw [hstep] at hr
                  exact absurd hr (by simp)
  | succ h ih =>
      intro t hwf
      cases t with
      | leaf es => exact absurd hwf (by simp [subWF])
      | internal ks cs =>
          obtain ⟨hksI, hlen, hmem⟩ := hwf
          have hi : findChild ks k < cs.length := by
            have := findChild_le ks k
            omega
          obtain ⟨hcwf, hcmin⟩ :=
            hmem (cs.get ⟨findChild ks k, hi⟩) (cs.get_mem _ _)
          have IH := ih (cs.get ⟨findChild ks k, hi⟩) hcwf
          rcases hrec : insAux L I k v h (cs.get ⟨findChild ks k, hi⟩) with
            _ | c2 | ⟨cl, sep0, cr⟩
          · have hstep : insAux L I k v (h + 1) (BTNode.internal ks cs) =
                InsRes.unchanged := by
              simp only [insAux]
              rw [dif_pos hi, hrec]
            constructor
            · intro n hn
              rw [hstep] at hn
              exact absurd hn (by simp)
            · intro l sep r hr
              rw [hstep] at hr
              exact absurd hr (by simp)
          · obtain ⟨hc2wf, hc2ge, hc2le⟩ := IH.1 c2 hrec
            have hstep : insAux L I k v (h + 1) (BTNode.internal ks cs) =
                InsRes.one
                  (BTNode.internal ks (cs.set (findChild ks k) c2)) := by
              simp only [insAux]
              rw [dif_pos hi, hrec]
            constructor
            · intro n hn
              rw [hstep, InsRes.one.injEq] at hn
              subst hn
              refine ⟨⟨hksI, by rw [List.length_set]; exact hlen, ?_⟩,
                ?_, ?_⟩
              · intro c hc
                rcases List.mem_or_eq_of_mem_set hc with hc2 | rfl
                · exact hmem c hc2
                · exact ⟨hc2wf, le_trans hcmin hc2ge⟩
              · simp [node_count]
              · simp [node_count]
            · intro l sep r hr
              rw [hstep] at hr
              exact absurd hr (by simp)
          · obtain ⟨⟨hclwf, hclmin⟩, hcrwf, hcrmin⟩ := IH.2 cl sep0 cr hrec
            have hks2 := insertAt_length (findChild ks k) sep0 ks
            have hcs2 := insertAt_length (findChild ks k + 1) cr
              (cs.set (findChild ks k) cl)
            rw [List.length_set] at hcs2
            have hmem2 : ∀ c ∈ insertAt (findChild ks k + 1) cr
                (cs.set (findChild ks k) cl),
                subWF L I h c ∧ min_count L I h ≤ node_count c := by
              intro c hc
              rcases insertAt_mem _ _ _ _ hc with rfl | hc2
              · exact ⟨hcrwf, hcrmin⟩
              · rcases List.mem_or_eq_of_mem_set hc2 with hc3 | rfl
                · exact hmem c hc3
                · exact ⟨hclwf, hclmin⟩
            by_cases hov : I < (insertAt (findChild ks k) sep0 ks).length
            · have hstep : insAux L I k v (h + 1) (BTNode.internal ks cs) =
                  InsRes.split
                    (BTNode.internal
                      ((insertAt (findChild ks k) sep0 ks).take (I / 2))
                      ((insertAt (findChild ks k + 1) cr
                        (cs.set (findChild ks k) cl)).take (I / 2 + 1)))
                    ((insertAt (findChild ks k) sep0 ks).getD (I / 2) 0)
                    (BTNode.internal
                      ((insertAt (findChild ks k) sep0 ks).drop (I / 2 + 1))
                      ((insertAt (findChild ks k + 1) cr
                        (cs.set (findChild ks k) cl)).drop (I / 2 + 1)))
                  := by
                simp only [insAux]
                rw [dif_pos hi, hrec]
                simp only [if_pos hov]
              constructor
              · intro n hn
                rw [hstep] at hn
                exact absurd hn (by simp)
              · intro l sep r hr
                rw [hstep, InsRes.split.injEq] at hr
                obtain ⟨h1, -, h3⟩ := hr
                subst h1; subst h3
                constructor
                · refine ⟨⟨?_, ?_, ?_⟩, ?_⟩
                  · rw [List.length_take]; omega
                  · rw [List.length_take, List.length_take]; omega
                  · intro c hc
                    exact hmem2 c (List.take_subset _ _ hc)
                  · simp only [node_count, List.length_take, min_count]
                    omega
                · refine ⟨⟨?_, ?_, ?_⟩, ?_⟩
                  · rw [List.length_drop]; omega
                  · rw [List.length_drop, List.length_drop]; omega
                  · intro c hc
                    exact hmem2 c (List.drop_subset _ _ hc)
                  · simp only [node_count, List.length_drop, min_count]
                    omega
            · have hstep : insAux L I k v (h + 1) (BTNode.internal ks cs) =
                  InsRes.one
                    (BTNode.internal (insertAt (findChild ks k) sep0 ks)
                      (insertAt (findChild ks k + 1) cr
                        (cs.set (findChild ks k) cl))) := by
                simp only [insAux]
                rw [dif_pos hi, hrec]
                simp only [if_neg hov]
              constructor
              · intro n hn
                rw [hstep, InsRes.one.injEq] at hn
                subst hn
                refine ⟨⟨by omega, by omega, hmem2⟩, ?_, ?_⟩
                · simp only [node_count]
                  omega
                · simp only [node_count]
                  omega
              · intro l sep r hr
                rw [hstep] at hr
                exact absurd hr (by simp)

lemma min_count_pos (L I : Nat) (hL : 2 ≤ L) (hI : 2 ≤ I) (h : Nat) :
    1 ≤ min_count L I h := by
  cases h <;> simp only [min_count] <;> omega

lemma merge_fits (L I : Nat) (hL : 2 ≤ L) (hI : 2 ≤ I) (h : Nat) :
    min_count L I h + min_count L I h + sepw h ≤ max_count L I h + 1 := by
  cases h <;> simp only [min_count, max_count, sepw] <;> omega

lemma delAux_wf (L I k : Nat) (hL : 2 ≤ L) (hI : 2 ≤ I) :
    ∀ (h : Nat) (t : BTNode), subWF L I h t →
      (0 < h → 1 ≤ node_count t) →
      subWF L I h (delAux L I k h t) ∧
        node_count t - 1 ≤ node_count (delAux L I k h t) ∧
        node_count (delAux L I k h t) ≤ node_count t := by
  intro h
  induction h with
  | zero =>
      intro t hwf _
      cases t with
      | internal ks cs => exact absurd hwf (by simp [subWF])
      | leaf es =>
          simp only [subWF] at hwf
          have := removeEntry_length k es
          simp only [delAux, subWF, node_count]
          omega
  | succ h ih =>
      intro t hwf hroot
      cases t with
      | leaf es => exact absurd hwf (by simp [subWF])
      | internal ks cs =>
          obtain ⟨hksI, hlen, hmem⟩ := hwf
          have hks1 : 1 ≤ ks.length := by
            have := hroot (Nat.succ_pos h)
            simpa [node_count] using this
          have hi : findChild ks k < cs.length := by
            have := findChild_le ks k
            omega
          obtain ⟨hcw, hcmin⟩ :=
            hmem (cs.get ⟨findChild ks k, hi⟩) (cs.get_mem _ _)
          obtain ⟨hc2w, hc2ge, hc2le⟩ :=
            ih (cs.get ⟨findChild ks k, hi⟩) hcw
              (fun _ => le_trans (min_count_pos L I hL hI h) hcmin)
          have hmin1 := min_count_pos L I hL hI h
          have hfits := merge_fits L I hL hI h
          simp only [delAux]
          rw [dif_pos hi]
          set c2 := delAux L I k h (cs.get ⟨findChild ks k, hi⟩)
            with hc2def
          by_cases hb1 : min_count L I h ≤ node_count c2
          · rw [if_pos hb1]
            refine ⟨⟨hksI, ?_, ?_⟩, ?_, ?_⟩
            · rw [List.length_set]
              exact hlen
            · intro c hc
              rcases List.mem_or_eq_of_mem_set hc with hc | rfl
              · exact hmem c hc
              · exact ⟨hc2w, hb1⟩
            · simp [node_count]
            · simp [node_count]
          · rw [if_neg hb1]
            have hc2eq : node_count c2 = min_count L I h - 1 := by
              omega
            by_cases hb2 : 0 < findChild ks k ∧ min_count L I h <
                node_count (cs.getD (findChild ks k - 1) (BTNode.leaf []))
            · rw [if_pos hb2]
              obtain ⟨hipos, hlmin⟩ := hb2
              obtain ⟨hlw, hlmin2⟩ := hmem _
                (getD_mem cs (findChild ks k - 1) (BTNode.leaf [])
                  (by omega))
              obtain ⟨hr1w, hr1c, hr2w, hr2c⟩ :=
                borrow_left_spec L I hL hI h
                  (ks.getD (findChild ks k - 1) 0)
                  (cs.getD (findChild ks k - 1) (BTNode.leaf [])) c2
                  hlw hc2w hlmin (by omega)
              refine ⟨⟨?_, ?_, ?_⟩, ?_, ?_⟩
              · rw [List.length_set]
                exact hksI
              · rw [List.length_set, List.length_set, List.length_set]
                exact hlen
              · intro c hc
                rcases List.mem_or_eq_of_mem_set hc with hc | rfl
                · rcases List.mem_or_eq_of_mem_set hc with hc | rfl
                  · exact hmem c hc
                  · exact ⟨hr1w, by omega⟩
                · exact ⟨hr2w, by omega⟩
              · simp [node_count]
              · simp [node_count]
            · rw [if_neg hb2]
              by_cases hb3 : findChild ks k + 1 < cs.length ∧
                  min_count L I h <
                  node_count (cs.getD (findChild ks k + 1)
                    (BTNode.leaf []))
              · rw [if_pos hb3]
                obtain ⟨hinext, hrmin⟩ := hb3
                obtain ⟨hrw, hrmin2⟩ := hmem _
                  (getD_mem cs (findChild ks k + 1) (BTNode.leaf [])
                    (by omega))
                obtain ⟨hr1w, hr1c, hr2w, hr2c⟩ :=
                  borrow_right_spec L I hL hI h
                    (ks.getD (findChild ks k) 0) c2
                    (cs.getD (findChild ks k + 1) (BTNode.leaf []))
                    hc2w hrw (by omega) hrmin
                refine ⟨⟨?_, ?_, ?_⟩, ?_, ?_⟩
                · rw [List.length_set]
                  exact hksI
                · rw [List.length_set, List.length_set, List.length_set]
                  exact hlen
                · intro c hc
                  rcases List.mem_or_eq_of_mem_set hc with hc | rfl
                  · rcases List.mem_or_eq_of_mem_set hc with hc | rfl
                    · exact hmem c hc
                    · exact ⟨hr1w, by omega⟩
                  · exact ⟨hr2w, by omega⟩
                · simp [node_count]
                · simp [node_count]
              · rw [if_neg hb3]
                by_cases hb4 : 0 < findChild ks k
                · rw [if_pos hb4]
                  obtain ⟨hlw, hlmin2⟩ := hmem _
                    (getD_mem cs (findChild ks k - 1) (BTNode.leaf [])
                      (by omega))
                  have hleq : node_count (cs.getD (findChild ks k - 1)
                      (BTNode.leaf [])) = min_count L I h := by
                    rcases not_and_or.mp hb2 with hcon | hcon
                    · exact absurd hb4 hcon
                    · omega
                  obtain ⟨hmw, hmc⟩ := merge_nodes_spec L I h
                    (ks.getD (findChild ks k - 1) 0)
                    (cs.getD (findChild ks k - 1) (BTNode.leaf [])) c2
                    hlw hc2w (by omega)
                  refine ⟨⟨?_, ?_, ?_⟩, ?_, ?_⟩
                  · rw [List.length_eraseIdx]
                    simp only [if_pos (show findChild ks k - 1 <
                      ks.length by omega)]
                    omega
                  · rw [List.length_eraseIdx, List.length_set]
                    simp only [if_pos (show findChild ks k <
                      cs.length by omega)]
                    rw [List.length_eraseIdx]
                    simp only [if_pos (show findChild ks k - 1 <
                      ks.length by omega)]
                    omega
                  · intro c hc
                    rcases List.mem_or_eq_of_mem_set
                      (List.eraseIdx_subset _ _ hc) with hc | rfl
                    · exact hmem c hc
                    · exact ⟨hmw, by omega⟩
                  · simp only [node_count]
                    rw [List.length_eraseIdx]
                    simp only [if_pos (show findChild ks k - 1 <
                      ks.length by omega)]
                    omega
                  · simp only [node_count]
                    rw [List.length_eraseIdx]
                    simp only [if_pos (show findChild ks k - 1 <
                      ks.length by omega)]
                    omega
                · rw [if_neg hb4]
                  have hi0 : findChild ks k = 0 := by omega
                  have h1cs : 1 < cs.length := by omega
                  obtain ⟨hrw, hrmin2⟩ := hmem _
                    (getD_mem cs 1 (BTNode.leaf []) h1cs)
                  have hreq : node_count (cs.getD 1 (BTNode.leaf [])) =
                      min_count L I h := by
                    rcases not_and_or.mp hb3 with hcon | hcon
                    · rw [hi0] at hcon
                      exact absurd h1cs hcon
                    · rw [hi0] at hcon
                      simp only [Nat.zero_add] at hcon
                      omega
                  obtain ⟨hmw, hmc⟩ := merge_nodes_spec L I h
                    (ks.getD 0 0) c2 (cs.getD 1 (BTNode.leaf []))
                    hc2w hrw (by omega)
                  refine ⟨⟨?_, ?_, ?_⟩, ?_, ?_⟩
                  · rw [List.length_eraseIdx]
                    simp only [if_pos (show 0 < ks.length by omega)]
                    omega
                  · rw [List.length_eraseIdx, List.length_set]
                    simp only [if_pos (show 1 < cs.length by omega)]
                    rw [List.length_eraseIdx]
                    simp only [if_pos (show 0 < ks.length by omega)]
                    omega
                  · intro c hc
                    rcases List.mem_or_eq_of_mem_set
                      (List.eraseIdx_subset _ _ hc) with hc | rfl
                    · exact hmem c hc
                    · exact ⟨hmw, by omega⟩
                  · simp only [node_count]
                    rw [List.length_eraseIdx]
                    simp only [if_pos (show 0 < ks.length by omega)]
                    omega
                  · simp only [node_count]
                    rw [List.length_eraseIdx]
                    simp only [if_pos (show 0 < ks.length by omega)]
                    omega

lemma wf_root_empty (L I h : Nat) (t : BTNode) (hw : wf_root L I h t)
    (h0 : node_count t = 0) : t = BTNode.leaf [] := by
  cases h with
  | zero =>
      cases t with
      | leaf es =>
          simp only [node_count] at h0
          rw [List.eq_nil_of_length_eq_zero h0]
      | internal ks cs => exact absurd hw.1 (by simp [subWF])
  | succ h =>
      have := hw.2 (Nat.succ_pos h)
      omega

/-- Modelled from the spec: C9: after every B+Tree operation (insert or
delete, including leaf and internal splits, borrows from either sibling,
and merges), every non-root node holds between `min_keys` and `max_keys`
keys inclusive (`wf_root`, built on `subWF`, states exactly this for
every node below the root, and the max bound for the root), and the root
may be empty only if the tree is the empty leaf. -/
theorem bt_occupancy (L I k v : Nat) (hL : 2 ≤ L) (hI : 2 ≤ I)
    (h : Nat) (t : BTNode) (hwf : wf_root L I h t) :
    (wf_root L I (bt_insert L I k v h t).1 (bt_insert L I k v h t).2 ∧
      (node_count (bt_insert L I k v h t).2 = 0 →
        (bt_insert L I k v h t).2 = BTNode.leaf [])) ∧
    (wf_root L I (bt_delete L I k h t).1 (bt_delete L I k h t).2 ∧
      (node_count (bt_delete L I k h t).2 = 0 →
        (bt_delete L I k h t).2 = BTNode.leaf [])) := by
  obtain ⟨hsub, hroot⟩ := hwf
  constructor
  · have H := insAux_wf L I k v hL hI h t hsub
    rcases hres : insAux L I k v h t with _ | n | ⟨l, sep, r⟩
    · simp only [bt_insert, hres]
      exact ⟨⟨hsub, hroot⟩, wf_root_empty L I h t ⟨hsub, hroot⟩⟩
    · obtain ⟨hnw, hge, hle⟩ := H.1 n hres
      simp only [bt_insert, hres]
      have hw2 : wf_root L I h n := by
        refine ⟨hnw, fun hp => ?_⟩
        have := hroot hp
        omega
      exact ⟨hw2, wf_root_empty L I h n hw2⟩
    · obtain ⟨⟨hlw, hlm⟩, hrw, hrm⟩ := H.2 l sep r hres
      simp only [bt_insert, hres]
      refine ⟨⟨⟨by simp; omega, by simp, ?_⟩, fun _ => by
        simp [node_count]⟩, ?_⟩
      · intro c hc
        rcases List.mem_cons.mp hc with rfl | hc
        · exact ⟨hlw, hlm⟩
        · rcases List.mem_cons.mp hc with rfl | hc
          · exact ⟨hrw, hrm⟩
          · exact absurd hc (List.not_mem_nil c)
      · intro h0
        simp [node_count] at h0
  · obtain ⟨hdw, hdge, hdle⟩ := delAux_wf L I k hL hI h t hsub hroot
    cases h with
    | zero =>
        simp only [bt_delete]
        have hw2 : wf_root L I 0 (delAux L I k 0 t) :=
          ⟨hdw, fun hp => absurd hp (by simp)⟩
        exact ⟨hw2, wf_root_empty L I 0 _ hw2⟩
    | succ h2 =>
        rcases ht2 : delAux L I k (h2 + 1) t with es | ⟨ks2, cs2⟩
        · rw [ht2] at hdw
          exact absurd hdw (by simp [subWF])
        · cases ks2 with
          | nil =>
              rw [ht2] at hdw
              obtain ⟨-, hlen2, hmem2⟩ := hdw
              simp only [List.length_nil] at hlen2
              simp only [bt_delete, ht2]
              have hc := hmem2 _
                (getD_mem cs2 0 (BTNode.leaf []) (by omega))
              have hminp := min_count_pos L I hL hI h2
              refine ⟨⟨hc.1, fun _ => by omega⟩, fun h0 => ?_⟩
              exfalso
              omega
          | cons k0 krest =>
              rw [ht2] at hdw
              simp only [bt_delete, ht2]
              refine ⟨⟨hdw, fun _ => by simp [node_count]⟩, fun h0 => ?_⟩
              simp [node_count] at h0

theorem bt_occupancy_witness :
    wf_root 4 4 0 (BTNode.leaf [(1, 10), (2, 20)]) ∧
      ((wf_root 4 4
          (bt_insert 4 4 3 30 0 (BTNode.leaf [(1, 10), (2, 20)])).1
          (bt_insert 4 4 3 30 0 (BTNode.leaf [(1, 10), (2, 20)])).2 ∧
        (node_count
            (bt_insert 4 4 3 30 0 (BTNode.leaf [(1, 10), (2, 20)])).2 =
            0 →
          (bt_insert 4 4 3 30 0 (BTNode.leaf [(1, 10), (2, 20)])).2 =
            BTNode.leaf [])) ∧
      (wf_root 4 4
          (bt_delete 4 4 3 0 (BTNode.leaf [(1, 10), (2, 20)])).1
          (bt_delete 4 4 3 0 (BTNode.leaf [(1, 10), (2, 20)])).2 ∧
        (node_count
            (bt_delete 4 4 3 0 (BTNode.leaf [(1, 10), (2, 20)])).2 =
            0 →
          (bt_delete 4 4 3 0 (BTNode.leaf [(1, 10), (2, 20)])).2 =
            BTNode.leaf []))) := by
  have hw : wf_root 4 4 0 (BTNode.leaf [(1, 10), (2, 20)]) := by
    constructor
    · show ([(1, 10), (2, 20)] : List (Nat × Nat)).length ≤ 4
      decide
    · intro hp
      exact absurd hp (by decide)
  exact ⟨hw, bt_occupancy 4 4 3 30 (by decide) (by decide) 0 _ hw⟩
